import Mathlib

/-!
Verification of the content-indexing and rendering core of the mynt static
blog generator (`src/mynt/core.py`).

Python strings are modelled as `List Char` where character-level reasoning
is needed (URL resolution, entity unescaping, excerpt extraction) and as
`String` elsewhere.  Python's `str.replace` is modelled by `replaceAll`,
`datetime.strftime` by `strftime` restricted to the directives that can
actually reach it (`%%`, `%Y`, `%m`, `%d`; any other directive is kept
verbatim, matching glibc's behaviour of leaving unknown conversions alone —
the theorems below never depend on that fallback).  Python's stable
`list.sort(key=...)` is modelled by `List.insertionSort` with the
corresponding total preorder, which is likewise a stable sort.
-/

/-- Fuel-bounded core of `replaceAll`.  The fuel is an upper bound on the
length of the remaining string, so the exhausted-fuel branch is never
reached through `replaceAll`; structural recursion on the fuel keeps the
function kernel-reducible. -/
def replaceAllAux (pat rep : List Char) : Nat → List Char → List Char
  | _, [] => []
  | 0, s => s
  | fuel + 1, c :: t =>
    if pat.isPrefixOf (c :: t) ∧ pat ≠ [] then
      rep ++ replaceAllAux pat rep fuel ((c :: t).drop pat.length)
    else
      c :: replaceAllAux pat rep fuel t

theorem replaceAllAux_congr (pat rep : List Char) :
    ∀ f1 f2 : Nat, ∀ s : List Char, s.length ≤ f1 → s.length ≤ f2 →
      replaceAllAux pat rep f1 s = replaceAllAux pat rep f2 s := by
  intro f1
  induction f1 with
  | zero =>
    intro f2 s h1 _
    have hs : s = [] := List.length_eq_zero.mp (Nat.le_zero.mp h1)
    subst hs
    cases f2 <;> rfl
  | succ f1 ih =>
    intro f2 s h1 h2
    cases s with
    | nil => cases f2 <;> rfl
    | cons c t =>
      cases f2 with
      | zero => simp at h2
      | succ f2 =>
        simp only [List.length_cons] at h1 h2
        by_cases hcond : pat.isPrefixOf (c :: t) ∧ pat ≠ []
        · have hplen : 1 ≤ pat.length := List.length_pos.mpr hcond.2
          simp only [replaceAllAux, if_pos hcond]
          refine congrArg (rep ++ ·) (ih f2 _ ?_ ?_) <;>
            · simp only [List.length_drop, List.length_cons]
              omega
        · simp only [replaceAllAux, if_neg hcond]
          exact congrArg (c :: ·) (ih f2 t (by omega) (by omega))

/-- Python `s.replace(pat, rep)` on character lists: every non-overlapping
occurrence of `pat` is replaced, scanning left to right.  The patterns used
by `core.py` are never empty; an empty pattern leaves the string unchanged
here. -/
def replaceAll (pat rep : List Char) (s : List Char) : List Char :=
  replaceAllAux pat rep s.length s

theorem replaceAll_nil (pat rep : List Char) : replaceAll pat rep [] = [] := rfl

theorem replaceAll_pos (pat rep : List Char) (s : List Char) (hpat : pat ≠ [])
    (h : pat.isPrefixOf s = true) :
    replaceAll pat rep s = rep ++ replaceAll pat rep (s.drop pat.length) := by
  match s with
  | [] =>
    cases pat with
    | nil => exact absurd rfl hpat
    | cons p ps => simp [List.isPrefixOf] at h
  | c :: t =>
    show replaceAllAux pat rep (c :: t).length (c :: t) = _
    have hplen : 1 ≤ pat.length := List.length_pos.mpr hpat
    simp only [List.length_cons, replaceAllAux, if_pos (And.intro h hpat)]
    refine congrArg (rep ++ ·) (replaceAllAux_congr pat rep _ _ _ ?_ ?_) <;>
      · simp only [List.length_drop, List.length_cons]
        omega

theorem replaceAll_neg (pat rep : List Char) (c : Char) (t : List Char)
    (h : pat.isPrefixOf (c :: t) = false) :
    replaceAll pat rep (c :: t) = c :: replaceAll pat rep t := by
  have hcond : ¬ (pat.isPrefixOf (c :: t) ∧ pat ≠ []) := by
    intro hcon
    rw [hcon.1] at h
    simp at h
  show replaceAllAux pat rep (c :: t).length (c :: t) = _
  simp only [List.length_cons, replaceAllAux, if_neg hcond]
  rfl

theorem not_prefix_append {p a : List Char} (u : List Char)
    (h1 : ¬ p <+: a) (h2 : ¬ a <+: p) : ¬ p <+: (a ++ u) := by
  intro h
  rcases le_or_lt p.length a.length with hl | hl
  · exact h1 (List.prefix_of_prefix_length_le h (List.prefix_append a u) hl)
  · exact h2 (List.prefix_of_prefix_length_le (List.prefix_append a u) h hl.le)

theorem isPrefixOf_false_of_not_prefix {p s : List Char} (h : ¬ p <+: s) :
    p.isPrefixOf s = false :=
  Bool.eq_false_iff.mpr fun hb => h (List.isPrefixOf_iff_prefix.mp hb)

/-- A pattern whose first character never occurs in `a` finds no occurrence
that starts inside `a`, so `replaceAll` distributes over the append. -/
theorem replaceAll_skip (pat rep : List Char) (m : Char) (hp : pat.head? = some m) :
    ∀ (a u : List Char), m ∉ a →
      replaceAll pat rep (a ++ u) = a ++ replaceAll pat rep u := by
  intro a
  induction a with
  | nil => intro u _; simp
  | cons c a' ih =>
    intro u hm
    have hc : m ≠ c := fun e => hm (e ▸ List.mem_cons_self c a')
    obtain ⟨pat', rfl⟩ : ∃ p', pat = m :: p' := by
      cases pat with
      | nil => simp at hp
      | cons x xs => exact ⟨xs, by simpa using by simp at hp; simp [hp]⟩
    have hbeq : (m == c) = false := by simp [hc]
    have hnp : (m :: pat').isPrefixOf (c :: (a' ++ u)) = false := by
      simp [List.isPrefixOf, hbeq]
    rw [List.cons_append, replaceAll_neg _ _ _ _ hnp,
      ih u (fun hmem => hm (List.mem_cons_of_mem _ hmem)), List.cons_append]

/-- Skipping a literal block `c :: a`: the pattern does not match at the
start of the block (it is neither a prefix nor an extension of it), and its
first character does not occur later in the block. -/
theorem replaceAll_skip_lit (pat rep : List Char) (m c : Char) (a u : List Char)
    (hp : pat.head? = some m)
    (h1 : ¬ pat <+: (c :: a)) (h2 : ¬ (c :: a) <+: pat) (hm : m ∉ a) :
    replaceAll pat rep ((c :: a) ++ u) = (c :: a) ++ replaceAll pat rep u := by
  have hnp : pat.isPrefixOf (c :: (a ++ u)) = false := by
    have := not_prefix_append u h1 h2
    rw [List.cons_append] at this
    exact isPrefixOf_false_of_not_prefix this
  rw [List.cons_append, replaceAll_neg _ _ _ _ hnp,
    replaceAll_skip pat rep m hp a u hm, List.cons_append]

theorem replaceAll_match (pat rep u : List Char) (hpat : pat ≠ []) :
    replaceAll pat rep (pat ++ u) = rep ++ replaceAll pat rep u := by
  have h : pat.isPrefixOf (pat ++ u) = true :=
    List.isPrefixOf_iff_prefix.mpr (List.prefix_append pat u)
  rw [replaceAll_pos _ _ _ hpat h, List.drop_left]

/-- If the replacement starts with a character that does not occur in the
probe `v`, then a `v`-prefix of the rewritten string was already a prefix of
the original string. -/
theorem prefix_of_prefix_replaceAll (pat : List Char) (r0 : Char) (rep' : List Char)
    (hpat : pat ≠ []) :
    ∀ (u v : List Char), r0 ∉ v →
      v.isPrefixOf (replaceAll pat (r0 :: rep') u) = true → v.isPrefixOf u = true := by
  intro u
  induction u with
  | nil =>
    intro v _ h
    rwa [replaceAll_nil] at h
  | cons c t ih =>
    intro v hv h
    by_cases hm : pat.isPrefixOf (c :: t) = true
    · rw [replaceAll_pos _ _ _ hpat hm] at h
      match v, hv, h with
      | [], _, _ => simp [List.isPrefixOf]
      | v0 :: v', hv, h =>
        have : v0 = r0 := by
          rw [List.cons_append] at h
          simp [List.isPrefixOf] at h
          exact h.1
        exact absurd (this ▸ List.mem_cons_self v0 v') hv
    · have hm' : pat.isPrefixOf (c :: t) = false := Bool.eq_false_iff.mpr hm
      rw [replaceAll_neg _ _ _ _ hm'] at h
      match v, hv, h with
      | [], _, _ => simp [List.isPrefixOf]
      | v0 :: v', hv, h =>
        simp only [List.isPrefixOf, Bool.and_eq_true, beq_iff_eq] at h ⊢
        exact ⟨h.1, ih v' (fun hmem => hv (List.mem_cons_of_mem _ hmem)) h.2⟩

/-- The decimal digit characters. -/
def digitChars : List Char := ['0', '1', '2', '3', '4', '5', '6', '7', '8', '9']

/-- The decimal digit for `k < 10`. -/
def digitChar (k : Nat) : Char :=
  match k with
  | 0 => '0' | 1 => '1' | 2 => '2' | 3 => '3' | 4 => '4'
  | 5 => '5' | 6 => '6' | 7 => '7' | 8 => '8' | _ => '9'

/-- Fuel-bounded core of `natChars`; the fuel strictly bounds the number
being rendered, so the exhausted-fuel branch is never reached through
`natChars`. -/
def natCharsAux : Nat → Nat → List Char
  | 0, _ => []
  | fuel + 1, n =>
    if n < 10 then [digitChar n] else natCharsAux fuel (n / 10) ++ [digitChar (n % 10)]

theorem natCharsAux_congr :
    ∀ f1 f2 n : Nat, n < f1 → n < f2 → natCharsAux f1 n = natCharsAux f2 n := by
  intro f1
  induction f1 with
  | zero => intro f2 n h1; omega
  | succ f1 ih =>
    intro f2 n h1 h2
    cases f2 with
    | zero => omega
    | succ f2 =>
      by_cases hn : n < 10
      · simp [natCharsAux, hn]
      · simp only [natCharsAux, if_neg hn]
        have hdiv : n / 10 < n := Nat.div_lt_self (by omega) (by omega)
        exact congrArg (· ++ [digitChar (n % 10)]) (ih f2 (n / 10) (by omega) (by omega))

/-- Python `str(n)` for a natural number: its decimal digits. -/
def natChars (n : Nat) : List Char := natCharsAux (n + 1) n

theorem natChars_eq (n : Nat) :
    natChars n = if n < 10 then [digitChar n] else natChars (n / 10) ++ [digitChar (n % 10)] := by
  show natCharsAux (n + 1) n = _
  by_cases hn : n < 10
  · simp [natCharsAux, hn]
  · simp only [natCharsAux, if_neg hn]
    have hdiv : n / 10 < n := Nat.div_lt_self (by omega) (by omega)
    exact congrArg (· ++ [digitChar (n % 10)])
      (natCharsAux_congr n (n / 10 + 1) (n / 10) (by omega) (by omega))

theorem digitChar_mem (k : Nat) : digitChar k ∈ digitChars := by
  unfold digitChar
  split <;> decide

theorem mem_natChars_digit : ∀ (n : Nat) (c : Char), c ∈ natChars n → c ∈ digitChars := by
  intro n
  induction n using Nat.strong_induction_on with
  | _ n ih =>
    intro c hc
    rw [natChars_eq] at hc
    split at hc
    · simp at hc
      exact hc ▸ digitChar_mem n
    · rw [List.mem_append] at hc
      rcases hc with hc | hc
      · exact ih (n / 10) (Nat.div_lt_self (by omega) (by omega)) c hc
      · simp at hc
        exact hc ▸ digitChar_mem (n % 10)

theorem not_mem_natChars {c : Char} (n : Nat) (hc : c ∉ digitChars) : c ∉ natChars n :=
  fun h => hc (mem_natChars_digit n c h)

theorem natChars_head : ∀ n : Nat, ∃ r0 r', natChars n = r0 :: r' ∧ r0 ∈ digitChars := by
  intro n
  induction n using Nat.strong_induction_on with
  | _ n ih =>
    rw [natChars_eq]
    split
    · exact ⟨digitChar n, [], rfl, digitChar_mem n⟩
    · obtain ⟨r0, r', h, hm⟩ := ih (n / 10) (Nat.div_lt_self (by omega) (by omega))
      exact ⟨r0, r' ++ [digitChar (n % 10)], by rw [h]; rfl, hm⟩

/-- Zero-padded two-digit rendering, as `strftime`'s `%m`/`%d` produce. -/
def pad2 (n : Nat) : List Char :=
  if n < 10 then '0' :: natChars n else natChars n

theorem mem_pad2_digit (n : Nat) (c : Char) (h : c ∈ pad2 n) : c ∈ digitChars := by
  unfold pad2 at h
  split at h
  · rcases List.mem_cons.mp h with rfl | h
    · decide
    · exact mem_natChars_digit n c h
  · exact mem_natChars_digit n c h

theorem not_mem_pad2 {c : Char} (n : Nat) (hc : c ∉ digitChars) : c ∉ pad2 n :=
  fun h => hc (mem_pad2_digit n c h)

theorem pad2_head (n : Nat) : ∃ r0 r', pad2 n = r0 :: r' ∧ r0 ∈ digitChars := by
  unfold pad2
  split
  · exact ⟨'0', natChars n, rfl, by decide⟩
  · exact natChars_head n

/-- A calendar date, the part of a Python `datetime` that the URL resolver
reads. -/
structure Date where
  year : Nat
  month : Nat
  day : Nat

/-- Expansion of one `strftime` directive.  Only `%%`, `%Y`, `%m` and `%d`
can occur in the format strings `_get_post_url` builds; an unknown directive
is kept verbatim (the theorems never reach that branch). -/
def strfDirective (d : Date) (c : Char) : List Char :=
  if c = '%' then ['%']
  else if c = 'Y' then natChars d.year
  else if c = 'm' then pad2 d.month
  else if c = 'd' then pad2 d.day
  else ['%', c]

/-- `datetime.strftime` on a format string. -/
def strftime (d : Date) : List Char → List Char
  | [] => []
  | [c] => if c = '%' then ['%'] else [c]
  | c :: c2 :: t =>
    if c = '%' then strfDirective d c2 ++ strftime d t
    else c :: strftime d (c2 :: t)

theorem strftime_cons_ne (d : Date) (c : Char) (x : List Char) (h : c ≠ '%') :
    strftime d (c :: x) = c :: strftime d x := by
  cases x with
  | nil => simp [strftime, h]
  | cons y ys => simp [strftime, h]

theorem strftime_append_nopct (d : Date) :
    ∀ (a x : List Char), '%' ∉ a → strftime d (a ++ x) = a ++ strftime d x := by
  intro a
  induction a with
  | nil => intro x _; simp
  | cons c a' ih =>
    intro x hm
    have hc : c ≠ '%' := fun e => hm (e ▸ List.mem_cons_self c a')
    rw [List.cons_append, strftime_cons_ne d c _ hc,
      ih x (fun h => hm (List.mem_cons_of_mem _ h)), List.cons_append]

theorem strftime_pct_pct (d : Date) (x : List Char) :
    strftime d ('%' :: '%' :: x) = '%' :: strftime d x := by
  simp [strftime, strfDirective]

theorem strftime_pct_Y (d : Date) (x : List Char) :
    strftime d ('%' :: 'Y' :: x) = natChars d.year ++ strftime d x := by
  simp [strftime, strfDirective]

theorem strftime_pct_m (d : Date) (x : List Char) :
    strftime d ('%' :: 'm' :: x) = pad2 d.month ++ strftime d x := by
  simp [strftime, strfDirective]

theorem strftime_pct_d (d : Date) (x : List Char) :
    strftime d ('%' :: 'd' :: x) = pad2 d.day ++ strftime d x := by
  simp [strftime, strfDirective]

/-- The `<year>` placeholder of `posts_url` patterns. -/
def tYear : List Char := ['<', 'y', 'e', 'a', 'r', '>']

/-- The `<month>` placeholder. -/
def tMonth : List Char := ['<', 'm', 'o', 'n', 't', 'h', '>']

/-- The `<day>` placeholder. -/
def tDay : List Char := ['<', 'd', 'a', 'y', '>']

/-- The `<i_month>` placeholder. -/
def tIMonth : List Char := ['<', 'i', '_', 'm', 'o', 'n', 't', 'h', '>']

/-- The `<i_day>` placeholder. -/
def tIDay : List Char := ['<', 'i', '_', 'd', 'a', 'y', '>']

/-- The `<title>` placeholder. -/
def tTitle : List Char := ['<', 't', 'i', 't', 'l', 'e', '>']

/-- The placeholder-substitution loop of `_get_post_url`: one sequential
`str.replace` pass per entry of the `subs` dictionary.  The iteration order
of a Python 2 dict is unspecified; the order fixed here is the dict-literal
order, and under the main theorem's slug hypothesis no pass can create or
destroy an occurrence for another pass, so the order is immaterial. -/
def applySubs (d : Date) (slug : List Char) (s : List Char) : List Char :=
  replaceAll tTitle slug
    (replaceAll tIDay (natChars d.day)
      (replaceAll tIMonth (natChars d.month)
        (replaceAll tDay ['%', 'd']
          (replaceAll tMonth ['%', 'm']
            (replaceAll tYear ['%', 'Y'] s)))))

/-- `posts_url.replace('%', '%%')`: the escaping step of `_get_post_url`. -/
def escapePct (s : List Char) : List Char := replaceAll ['%'] ['%', '%'] s

/-- `Mynt._get_post_url`: escape the percent signs of the configured
`posts_url` pattern, substitute the placeholders, then run the result
through `date.strftime`. -/
def getPostUrl (postsUrl : List Char) (d : Date) (slug : List Char) : List Char :=
  strftime d (applySubs d slug (escapePct postsUrl))

/-- Spec-side reference definition, following the spec's words: each
placeholder is substituted directly by its date-derived text (`<year>` and
the `i_`-variants by the plain decimal value, `<month>`/`<day>` by the
zero-padded value, `<title>` by the slug), and every other character of the
pattern — in particular any literal percent sign — is left untouched. -/
def applySpecSubs (d : Date) (slug : List Char) (s : List Char) : List Char :=
  replaceAll tTitle slug
    (replaceAll tIDay (natChars d.day)
      (replaceAll tIMonth (natChars d.month)
        (replaceAll tDay (pad2 d.day)
          (replaceAll tMonth (pad2 d.month)
            (replaceAll tYear (natChars d.year) s)))))

/-- Spec-side post-URL resolution (see `applySpecSubs`). -/
def resolvePostUrlSpec (postsUrl : List Char) (d : Date) (slug : List Char) : List Char :=
  applySpecSubs d slug postsUrl

theorem cons_isPrefixOf_cons (a c : Char) (p s : List Char) :
    (a :: p).isPrefixOf (c :: s) = ((a == c) && p.isPrefixOf s) := rfl

theorem replaceAll_skip_cons (pat rep : List Char) (m c : Char)
    (hp : pat.head? = some m) (hc : m ≠ c) (x : List Char) :
    replaceAll pat rep (c :: x) = c :: replaceAll pat rep x := by
  have h := replaceAll_skip pat rep m hp [c] x (by simp [hc])
  simpa using h

theorem replaceAll_skip_lit2 (pat rep a u : List Char) (m : Char)
    (hp : pat.head? = some m)
    (h1 : ¬ pat <+: a) (h2 : ¬ a <+: pat) (hm : m ∉ a.tail) :
    replaceAll pat rep (a ++ u) = a ++ replaceAll pat rep u := by
  match a with
  | [] => exact absurd (List.nil_prefix) h2
  | c :: a' => exact replaceAll_skip_lit pat rep m c a' u hp h1 h2 hm

theorem applySubs_nil (d : Date) (slug : List Char) : applySubs d slug [] = [] := by
  unfold applySubs
  simp [replaceAll_nil]

theorem applySpecSubs_nil (d : Date) (slug : List Char) : applySpecSubs d slug [] = [] := by
  unfold applySpecSubs
  simp [replaceAll_nil]

theorem escapePct_nil : escapePct [] = [] := replaceAll_nil _ _

theorem applySubs_cons_ne (d : Date) (slug : List Char) (c : Char) (x : List Char)
    (hc : c ≠ '<') : applySubs d slug (c :: x) = c :: applySubs d slug x := by
  unfold applySubs
  rw [replaceAll_skip_cons tYear _ '<' c (by decide) (Ne.symm hc),
    replaceAll_skip_cons tMonth _ '<' c (by decide) (Ne.symm hc),
    replaceAll_skip_cons tDay _ '<' c (by decide) (Ne.symm hc),
    replaceAll_skip_cons tIMonth _ '<' c (by decide) (Ne.symm hc),
    replaceAll_skip_cons tIDay _ '<' c (by decide) (Ne.symm hc),
    replaceAll_skip_cons tTitle _ '<' c (by decide) (Ne.symm hc)]

theorem applySpecSubs_cons_ne (d : Date) (slug : List Char) (c : Char) (x : List Char)
    (hc : c ≠ '<') : applySpecSubs d slug (c :: x) = c :: applySpecSubs d slug x := by
  unfold applySpecSubs
  rw [replaceAll_skip_cons tYear _ '<' c (by decide) (Ne.symm hc),
    replaceAll_skip_cons tMonth _ '<' c (by decide) (Ne.symm hc),
    replaceAll_skip_cons tDay _ '<' c (by decide) (Ne.symm hc),
    replaceAll_skip_cons tIMonth _ '<' c (by decide) (Ne.symm hc),
    replaceAll_skip_cons tIDay _ '<' c (by decide) (Ne.symm hc),
    replaceAll_skip_cons tTitle _ '<' c (by decide) (Ne.symm hc)]

theorem escapePct_block (a u : List Char) (ha : '%' ∉ a) :
    escapePct (a ++ u) = a ++ escapePct u :=
  replaceAll_skip ['%'] ['%', '%'] '%' rfl a u ha

theorem escapePct_cons_ne (c : Char) (t : List Char) (hc : c ≠ '%') :
    escapePct (c :: t) = c :: escapePct t :=
  replaceAll_skip_cons ['%'] ['%', '%'] '%' c rfl (Ne.symm hc) t

theorem escapePct_pct (t : List Char) :
    escapePct ('%' :: t) = '%' :: '%' :: escapePct t := by
  unfold escapePct
  rw [replaceAll_pos ['%'] ['%', '%'] ('%' :: t) (by decide) (by simp [List.isPrefixOf])]
  rfl

theorem applySubs_tYear (d : Date) (slug u : List Char) :
    applySubs d slug (tYear ++ u) = '%' :: 'Y' :: applySubs d slug u := by
  unfold applySubs
  rw [replaceAll_match tYear ['%', 'Y'] u (by decide),
    replaceAll_skip tMonth ['%', 'm'] '<' (by decide) ['%', 'Y'] _ (by decide),
    replaceAll_skip tDay ['%', 'd'] '<' (by decide) ['%', 'Y'] _ (by decide),
    replaceAll_skip tIMonth (natChars d.month) '<' (by decide) ['%', 'Y'] _ (by decide),
    replaceAll_skip tIDay (natChars d.day) '<' (by decide) ['%', 'Y'] _ (by decide),
    replaceAll_skip tTitle slug '<' (by decide) ['%', 'Y'] _ (by decide)]
  rfl

theorem applySubs_tMonth (d : Date) (slug u : List Char) :
    applySubs d slug (tMonth ++ u) = '%' :: 'm' :: applySubs d slug u := by
  unfold applySubs
  rw [replaceAll_skip_lit2 tYear ['%', 'Y'] tMonth u '<' (by decide) (by decide) (by decide)
      (by decide),
    replaceAll_match tMonth ['%', 'm'] _ (by decide),
    replaceAll_skip tDay ['%', 'd'] '<' (by decide) ['%', 'm'] _ (by decide),
    replaceAll_skip tIMonth (natChars d.month) '<' (by decide) ['%', 'm'] _ (by decide),
    replaceAll_skip tIDay (natChars d.day) '<' (by decide) ['%', 'm'] _ (by decide),
    replaceAll_skip tTitle slug '<' (by decide) ['%', 'm'] _ (by decide)]
  rfl

theorem applySubs_tDay (d : Date) (slug u : List Char) :
    applySubs d slug (tDay ++ u) = '%' :: 'd' :: applySubs d slug u := by
  unfold applySubs
  rw [replaceAll_skip_lit2 tYear ['%', 'Y'] tDay u '<' (by decide) (by decide) (by decide)
      (by decide),
    replaceAll_skip_lit2 tMonth ['%', 'm'] tDay _ '<' (by decide) (by decide) (by decide)
      (by decide),
    replaceAll_match tDay ['%', 'd'] _ (by decide),
    replaceAll_skip tIMonth (natChars d.month) '<' (by decide) ['%', 'd'] _ (by decide),
    replaceAll_skip tIDay (natChars d.day) '<' (by decide) ['%', 'd'] _ (by decide),
    replaceAll_skip tTitle slug '<' (by decide) ['%', 'd'] _ (by decide)]
  rfl

theorem applySubs_tIMonth (d : Date) (slug u : List Char) :
    applySubs d slug (tIMonth ++ u) = natChars d.month ++ applySubs d slug u := by
  unfold applySubs
  rw [replaceAll_skip_lit2 tYear ['%', 'Y'] tIMonth u '<' (by decide) (by decide) (by decide)
      (by decide),
    replaceAll_skip_lit2 tMonth ['%', 'm'] tIMonth _ '<' (by decide) (by decide) (by decide)
      (by decide),
    replaceAll_skip_lit2 tDay ['%', 'd'] tIMonth _ '<' (by decide) (by decide) (by decide)
      (by decide),
    replaceAll_match tIMonth (natChars d.month) _ (by decide),
    replaceAll_skip tIDay (natChars d.day) '<' (by decide) (natChars d.month) _
      (not_mem_natChars _ (by decide)),
    replaceAll_skip tTitle slug '<' (by decide) (natChars d.month) _
      (not_mem_natChars _ (by decide))]

theorem applySubs_tIDay (d : Date) (slug u : List Char) :
    applySubs d slug (tIDay ++ u) = natChars d.day ++ applySubs d slug u := by
  unfold applySubs
  rw [replaceAll_skip_lit2 tYear ['%', 'Y'] tIDay u '<' (by decide) (by decide) (by decide)
      (by decide),
    replaceAll_skip_lit2 tMonth ['%', 'm'] tIDay _ '<' (by decide) (by decide) (by decide)
      (by decide),
    replaceAll_skip_lit2 tDay ['%', 'd'] tIDay _ '<' (by decide) (by decide) (by decide)
      (by decide),
    replaceAll_skip_lit2 tIMonth (natChars d.month) tIDay _ '<' (by decide) (by decide)
      (by decide) (by decide),
    replaceAll_match tIDay (natChars d.day) _ (by decide),
    replaceAll_skip tTitle slug '<' (by decide) (natChars d.day) _
      (not_mem_natChars _ (by decide))]

theorem applySubs_tTitle (d : Date) (slug u : List Char) :
    applySubs d slug (tTitle ++ u) = slug ++ applySubs d slug u := by
  unfold applySubs
  rw [replaceAll_skip_lit2 tYear ['%', 'Y'] tTitle u '<' (by decide) (by decide) (by decide)
      (by decide),
    replaceAll_skip_lit2 tMonth ['%', 'm'] tTitle _ '<' (by decide) (by decide) (by decide)
      (by decide),
    replaceAll_skip_lit2 tDay ['%', 'd'] tTitle _ '<' (by decide) (by decide) (by decide)
      (by decide),
    replaceAll_skip_lit2 tIMonth (natChars d.month) tTitle _ '<' (by decide) (by decide)
      (by decide) (by decide),
    replaceAll_skip_lit2 tIDay (natChars d.day) tTitle _ '<' (by decide) (by decide)
      (by decide) (by decide),
    replaceAll_match tTitle slug _ (by decide)]

theorem applySpecSubs_tYear (d : Date) (slug u : List Char) :
    applySpecSubs d slug (tYear ++ u) = natChars d.year ++ applySpecSubs d slug u := by
  unfold applySpecSubs
  rw [replaceAll_match tYear (natChars d.year) u (by decide),
    replaceAll_skip tMonth (pad2 d.month) '<' (by decide) (natChars d.year) _
      (not_mem_natChars _ (by decide)),
    replaceAll_skip tDay (pad2 d.day) '<' (by decide) (natChars d.year) _
      (not_mem_natChars _ (by decide)),
    replaceAll_skip tIMonth (natChars d.month) '<' (by decide) (natChars d.year) _
      (not_mem_natChars _ (by decide)),
    replaceAll_skip tIDay (natChars d.day) '<' (by decide) (natChars d.year) _
      (not_mem_natChars _ (by decide)),
    replaceAll_skip tTitle slug '<' (by decide) (natChars d.year) _
      (not_mem_natChars _ (by decide))]

theorem applySpecSubs_tMonth (d : Date) (slug u : List Char) :
    applySpecSubs d slug (tMonth ++ u) = pad2 d.month ++ applySpecSubs d slug u := by
  unfold applySpecSubs
  rw [replaceAll_skip_lit2 tYear (natChars d.year) tMonth u '<' (by decide) (by decide)
      (by decide) (by decide),
    replaceAll_match tMonth (pad2 d.month) _ (by decide),
    replaceAll_skip tDay (pad2 d.day) '<' (by decide) (pad2 d.month) _
      (not_mem_pad2 _ (by decide)),
    replaceAll_skip tIMonth (natChars d.month) '<' (by decide) (pad2 d.month) _
      (not_mem_pad2 _ (by decide)),
    replaceAll_skip tIDay (natChars d.day) '<' (by decide) (pad2 d.month) _
      (not_mem_pad2 _ (by decide)),
    replaceAll_skip tTitle slug '<' (by decide) (pad2 d.month) _
      (not_mem_pad2 _ (by decide))]

theorem applySpecSubs_tDay (d : Date) (slug u : List Char) :
    applySpecSubs d slug (tDay ++ u) = pad2 d.day ++ applySpecSubs d slug u := by
  unfold applySpecSubs
  rw [replaceAll_skip_lit2 tYear (natChars d.year) tDay u '<' (by decide) (by decide)
      (by decide) (by decide),
    replaceAll_skip_lit2 tMonth (pad2 d.month) tDay _ '<' (by decide) (by decide)
      (by decide) (by decide),
    replaceAll_match tDay (pad2 d.day) _ (by decide),
    replaceAll_skip tIMonth (natChars d.month) '<' (by decide) (pad2 d.day) _
      (not_mem_pad2 _ (by decide)),
    replaceAll_skip tIDay (natChars d.day) '<' (by decide) (pad2 d.day) _
      (not_mem_pad2 _ (by decide)),
    replaceAll_skip tTitle slug '<' (by decide) (pad2 d.day) _
      (not_mem_pad2 _ (by decide))]

theorem applySpecSubs_tIMonth (d : Date) (slug u : List Char) :
    applySpecSubs d slug (tIMonth ++ u) = natChars d.month ++ applySpecSubs d slug u := by
  unfold applySpecSubs
  rw [replaceAll_skip_lit2 tYear (natChars d.year) tIMonth u '<' (by decide) (by decide)
      (by decide) (by decide),
    replaceAll_skip_lit2 tMonth (pad2 d.month) tIMonth _ '<' (by decide) (by decide)
      (by decide) (by decide),
    replaceAll_skip_lit2 tDay (pad2 d.day) tIMonth _ '<' (by decide) (by decide)
      (by decide) (by decide),
    replaceAll_match tIMonth (natChars d.month) _ (by decide),
    replaceAll_skip tIDay (natChars d.day) '<' (by decide) (natChars d.month) _
      (not_mem_natChars _ (by decide)),
    replaceAll_skip tTitle slug '<' (by decide) (natChars d.month) _
      (not_mem_natChars _ (by decide))]

theorem applySpecSubs_tIDay (d : Date) (slug u : List Char) :
    applySpecSubs d slug (tIDay ++ u) = natChars d.day ++ applySpecSubs d slug u := by
  unfold applySpecSubs
  rw [replaceAll_skip_lit2 tYear (natChars d.year) tIDay u '<' (by decide) (by decide)
      (by decide) (by decide),
    replaceAll_skip_lit2 tMonth (pad2 d.month) tIDay _ '<' (by decide) (by decide)
      (by decide) (by decide),
    replaceAll_skip_lit2 tDay (pad2 d.day) tIDay _ '<' (by decide) (by decide)
      (by decide) (by decide),
    replaceAll_skip_lit2 tIMonth (natChars d.month) tIDay _ '<' (by decide) (by decide)
      (by decide) (by decide),
    replaceAll_match tIDay (natChars d.day) _ (by decide),
    replaceAll_skip tTitle slug '<' (by decide) (natChars d.day) _
      (not_mem_natChars _ (by decide))]

theorem applySpecSubs_tTitle (d : Date) (slug u : List Char) :
    applySpecSubs d slug (tTitle ++ u) = slug ++ applySpecSubs d slug u := by
  unfold applySpecSubs
  rw [replaceAll_skip_lit2 tYear (natChars d.year) tTitle u '<' (by decide) (by decide)
      (by decide) (by decide),
    replaceAll_skip_lit2 tMonth (pad2 d.month) tTitle _ '<' (by decide) (by decide)
      (by decide) (by decide),
    replaceAll_skip_lit2 tDay (pad2 d.day) tTitle _ '<' (by decide) (by decide)
      (by decide) (by decide),
    replaceAll_skip_lit2 tIMonth (natChars d.month) tTitle _ '<' (by decide) (by decide)
      (by decide) (by decide),
    replaceAll_skip_lit2 tIDay (natChars d.day) tTitle _ '<' (by decide) (by decide)
      (by decide) (by decide),
    replaceAll_match tTitle slug _ (by decide)]

theorem applySubs_lt_cons (d : Date) (slug u : List Char)
    (h1 : (['y', 'e', 'a', 'r', '>'] : List Char).isPrefixOf u = false)
    (h2 : (['m', 'o', 'n', 't', 'h', '>'] : List Char).isPrefixOf u = false)
    (h3 : (['d', 'a', 'y', '>'] : List Char).isPrefixOf u = false)
    (h4 : (['i', '_', 'm', 'o', 'n', 't', 'h', '>'] : List Char).isPrefixOf u = false)
    (h5 : (['i', '_', 'd', 'a', 'y', '>'] : List Char).isPrefixOf u = false)
    (h6 : (['t', 'i', 't', 'l', 'e', '>'] : List Char).isPrefixOf u = false) :
    applySubs d slug ('<' :: u) = '<' :: applySubs d slug u := by
  obtain ⟨m0, m', hncm, hm0⟩ := natChars_head d.month
  obtain ⟨d0, d', hncd, hd0⟩ := natChars_head d.day
  unfold applySubs
  have e1 : tYear.isPrefixOf ('<' :: u) = false := by
    rw [show tYear = '<' :: ['y', 'e', 'a', 'r', '>'] from rfl, cons_isPrefixOf_cons]
    simp [h1]
  rw [replaceAll_neg _ _ _ _ e1]
  have k2 : (['m', 'o', 'n', 't', 'h', '>'] : List Char).isPrefixOf
      (replaceAll tYear ['%', 'Y'] u) = false := by
    apply Bool.eq_false_iff.mpr
    intro htr
    have s1 := prefix_of_prefix_replaceAll tYear '%' ['Y'] (by decide) _ _ (by decide) htr
    rw [h2] at s1
    simp at s1
  have e2 : tMonth.isPrefixOf ('<' :: replaceAll tYear ['%', 'Y'] u) = false := by
    rw [show tMonth = '<' :: ['m', 'o', 'n', 't', 'h', '>'] from rfl, cons_isPrefixOf_cons]
    simp [k2]
  rw [replaceAll_neg _ _ _ _ e2]
  have k3 : (['d', 'a', 'y', '>'] : List Char).isPrefixOf
      (replaceAll tMonth ['%', 'm'] (replaceAll tYear ['%', 'Y'] u)) = false := by
    apply Bool.eq_false_iff.mpr
    intro htr
    have s1 := prefix_of_prefix_replaceAll tMonth '%' ['m'] (by decide) _ _ (by decide) htr
    have s2 := prefix_of_prefix_replaceAll tYear '%' ['Y'] (by decide) _ _ (by decide) s1
    rw [h3] at s2
    simp at s2
  have e3 : tDay.isPrefixOf ('<' :: replaceAll tMonth ['%', 'm']
      (replaceAll tYear ['%', 'Y'] u)) = false := by
    rw [show tDay = '<' :: ['d', 'a', 'y', '>'] from rfl, cons_isPrefixOf_cons]
    simp [k3]
  rw [replaceAll_neg _ _ _ _ e3]
  have k4 : (['i', '_', 'm', 'o', 'n', 't', 'h', '>'] : List Char).isPrefixOf
      (replaceAll tDay ['%', 'd'] (replaceAll tMonth ['%', 'm']
        (replaceAll tYear ['%', 'Y'] u))) = false := by
    apply Bool.eq_false_iff.mpr
    intro htr
    have s1 := prefix_of_prefix_replaceAll tDay '%' ['d'] (by decide) _ _ (by decide) htr
    have s2 := prefix_of_prefix_replaceAll tMonth '%' ['m'] (by decide) _ _ (by decide) s1
    have s3 := prefix_of_prefix_replaceAll tYear '%' ['Y'] (by decide) _ _ (by decide) s2
    rw [h4] at s3
    simp at s3
  have e4 : tIMonth.isPrefixOf ('<' :: replaceAll tDay ['%', 'd'] (replaceAll tMonth ['%', 'm']
      (replaceAll tYear ['%', 'Y'] u))) = false := by
    rw [show tIMonth = '<' :: ['i', '_', 'm', 'o', 'n', 't', 'h', '>'] from rfl,
      cons_isPrefixOf_cons]
    simp [k4]
  rw [replaceAll_neg _ _ _ _ e4]
  have k5 : (['i', '_', 'd', 'a', 'y', '>'] : List Char).isPrefixOf
      (replaceAll tIMonth (natChars d.month) (replaceAll tDay ['%', 'd']
        (replaceAll tMonth ['%', 'm'] (replaceAll tYear ['%', 'Y'] u)))) = false := by
    apply Bool.eq_false_iff.mpr
    intro htr
    rw [hncm] at htr
    have hm0n : m0 ∉ (['i', '_', 'd', 'a', 'y', '>'] : List Char) := by
      have hall : ∀ c ∈ digitChars, c ∉ (['i', '_', 'd', 'a', 'y', '>'] : List Char) := by
        decide
      exact hall m0 hm0
    have s1 := prefix_of_prefix_replaceAll tIMonth m0 m' (by decide) _ _ hm0n htr
    have s2 := prefix_of_prefix_replaceAll tDay '%' ['d'] (by decide) _ _ (by decide) s1
    have s3 := prefix_of_prefix_replaceAll tMonth '%' ['m'] (by decide) _ _ (by decide) s2
    have s4 := prefix_of_prefix_replaceAll tYear '%' ['Y'] (by decide) _ _ (by decide) s3
    rw [h5] at s4
    simp at s4
  have e5 : tIDay.isPrefixOf ('<' :: replaceAll tIMonth (natChars d.month)
      (replaceAll tDay ['%', 'd'] (replaceAll tMonth ['%', 'm']
        (replaceAll tYear ['%', 'Y'] u)))) = false := by
    rw [show tIDay = '<' :: ['i', '_', 'd', 'a', 'y', '>'] from rfl, cons_isPrefixOf_cons]
    simp [k5]
  rw [replaceAll_neg _ _ _ _ e5]
  have k6 : (['t', 'i', 't', 'l', 'e', '>'] : List Char).isPrefixOf
      (replaceAll tIDay (natChars d.day) (replaceAll tIMonth (natChars d.month)
        (replaceAll tDay ['%', 'd'] (replaceAll tMonth ['%', 'm']
          (replaceAll tYear ['%', 'Y'] u))))) = false := by
    apply Bool.eq_false_iff.mpr
    intro htr
    rw [hncd] at htr
    have hd0n : d0 ∉ (['t', 'i', 't', 'l', 'e', '>'] : List Char) := by
      have hall : ∀ c ∈ digitChars, c ∉ (['t', 'i', 't', 'l', 'e', '>'] : List Char) := by
        decide
      exact hall d0 hd0
    have s1 := prefix_of_prefix_replaceAll tIDay d0 d' (by decide) _ _ hd0n htr
    rw [hncm] at s1
    have hm0n : m0 ∉ (['t', 'i', 't', 'l', 'e', '>'] : List Char) := by
      have hall : ∀ c ∈ digitChars, c ∉ (['t', 'i', 't', 'l', 'e', '>'] : List Char) := by
        decide
      exact hall m0 hm0
    have s2 := prefix_of_prefix_replaceAll tIMonth m0 m' (by decide) _ _ hm0n s1
    have s3 := prefix_of_prefix_replaceAll tDay '%' ['d'] (by decide) _ _ (by decide) s2
    have s4 := prefix_of_prefix_replaceAll tMonth '%' ['m'] (by decide) _ _ (by decide) s3
    have s5 := prefix_of_prefix_replaceAll tYear '%' ['Y'] (by decide) _ _ (by decide) s4
    rw [h6] at s5
    simp at s5
  have e6 : tTitle.isPrefixOf ('<' :: replaceAll tIDay (natChars d.day)
      (replaceAll tIMonth (natChars d.month) (replaceAll tDay ['%', 'd']
        (replaceAll tMonth ['%', 'm'] (replaceAll tYear ['%', 'Y'] u))))) = false := by
    rw [show tTitle = '<' :: ['t', 'i', 't', 'l', 'e', '>'] from rfl, cons_isPrefixOf_cons]
    simp [k6]
  rw [replaceAll_neg _ _ _ _ e6]

theorem applySpecSubs_lt_cons (d : Date) (slug u : List Char)
    (h1 : (['y', 'e', 'a', 'r', '>'] : List Char).isPrefixOf u = false)
    (h2 : (['m', 'o', 'n', 't', 'h', '>'] : List Char).isPrefixOf u = false)
    (h3 : (['d', 'a', 'y', '>'] : List Char).isPrefixOf u = false)
    (h4 : (['i', '_', 'm', 'o', 'n', 't', 'h', '>'] : List Char).isPrefixOf u = false)
    (h5 : (['i', '_', 'd', 'a', 'y', '>'] : List Char).isPrefixOf u = false)
    (h6 : (['t', 'i', 't', 'l', 'e', '>'] : List Char).isPrefixOf u = false) :
    applySpecSubs d slug ('<' :: u) = '<' :: applySpecSubs d slug u := by
  obtain ⟨y0, y', hncy, hy0⟩ := natChars_head d.year
  obtain ⟨pm0, pm', hpm, hpm0⟩ := pad2_head d.month
  obtain ⟨pd0, pd', hpd, hpd0⟩ := pad2_head d.day
  obtain ⟨m0, m', hncm, hm0⟩ := natChars_head d.month
  obtain ⟨d0, d', hncd, hd0⟩ := natChars_head d.day
  have hdig : ∀ (v : List Char), (∀ c ∈ digitChars, c ∉ v) →
      ∀ c0, c0 ∈ digitChars → c0 ∉ v := fun _ hall c0 hc0 => hall c0 hc0
  unfold applySpecSubs
  have e1 : tYear.isPrefixOf ('<' :: u) = false := by
    rw [show tYear = '<' :: ['y', 'e', 'a', 'r', '>'] from rfl, cons_isPrefixOf_cons]
    simp [h1]
  rw [replaceAll_neg _ _ _ _ e1]
  have k2 : (['m', 'o', 'n', 't', 'h', '>'] : List Char).isPrefixOf
      (replaceAll tYear (natChars d.year) u) = false := by
    apply Bool.eq_false_iff.mpr
    intro htr
    rw [hncy] at htr
    have s1 := prefix_of_prefix_replaceAll tYear y0 y' (by decide) _ _
      (hdig _ (by decide) y0 hy0) htr
    rw [h2] at s1
    simp at s1
  have e2 : tMonth.isPrefixOf ('<' :: replaceAll tYear (natChars d.year) u) = false := by
    rw [show tMonth = '<' :: ['m', 'o', 'n', 't', 'h', '>'] from rfl, cons_isPrefixOf_cons]
    simp [k2]
  rw [replaceAll_neg _ _ _ _ e2]
  have k3 : (['d', 'a', 'y', '>'] : List Char).isPrefixOf
      (replaceAll tMonth (pad2 d.month) (replaceAll tYear (natChars d.year) u)) = false := by
    apply Bool.eq_false_iff.mpr
    intro htr
    rw [hpm] at htr
    have s1 := prefix_of_prefix_replaceAll tMonth pm0 pm' (by decide) _ _
      (hdig _ (by decide) pm0 hpm0) htr
    rw [hncy] at s1
    have s2 := prefix_of_prefix_replaceAll tYear y0 y' (by decide) _ _
      (hdig _ (by decide) y0 hy0) s1
    rw [h3] at s2
    simp at s2
  have e3 : tDay.isPrefixOf ('<' :: replaceAll tMonth (pad2 d.month)
      (replaceAll tYear (natChars d.year) u)) = false := by
    rw [show tDay = '<' :: ['d', 'a', 'y', '>'] from rfl, cons_isPrefixOf_cons]
    simp [k3]
  rw [replaceAll_neg _ _ _ _ e3]
  have k4 : (['i', '_', 'm', 'o', 'n', 't', 'h', '>'] : List Char).isPrefixOf
      (replaceAll tDay (pad2 d.day) (replaceAll tMonth (pad2 d.month)
        (replaceAll tYear (natChars d.year) u))) = false := by
    apply Bool.eq_false_iff.mpr
    intro htr
    rw [hpd] at htr
    have s1 := prefix_of_prefix_replaceAll tDay pd0 pd' (by decide) _ _
      (hdig _ (by decide) pd0 hpd0) htr
    rw [hpm] at s1
    have s2 := prefix_of_prefix_replaceAll tMonth pm0 pm' (by decide) _ _
      (hdig _ (by decide) pm0 hpm0) s1
    rw [hncy] at s2
    have s3 := prefix_of_prefix_replaceAll tYear y0 y' (by decide) _ _
      (hdig _ (by decide) y0 hy0) s2
    rw [h4] at s3
    simp at s3
  have e4 : tIMonth.isPrefixOf ('<' :: replaceAll tDay (pad2 d.day)
      (replaceAll tMonth (pad2 d.month) (replaceAll tYear (natChars d.year) u))) = false := by
    rw [show tIMonth = '<' :: ['i', '_', 'm', 'o', 'n', 't', 'h', '>'] from rfl,
      cons_isPrefixOf_cons]
    simp [k4]
  rw [replaceAll_neg _ _ _ _ e4]
  have k5 : (['i', '_', 'd', 'a', 'y', '>'] : List Char).isPrefixOf
      (replaceAll tIMonth (natChars d.month) (replaceAll tDay (pad2 d.day)
        (replaceAll tMonth (pad2 d.month) (replaceAll tYear (natChars d.year) u)))) =
      false := by
    apply Bool.eq_false_iff.mpr
    intro htr
    rw [hncm] at htr
    have s1 := prefix_of_prefix_replaceAll tIMonth m0 m' (by decide) _ _
      (hdig _ (by decide) m0 hm0) htr
    rw [hpd] at s1
    have s2 := prefix_of_prefix_replaceAll tDay pd0 pd' (by decide) _ _
      (hdig _ (by decide) pd0 hpd0) s1
    rw [hpm] at s2
    have s3 := prefix_of_prefix_replaceAll tMonth pm0 pm' (by decide) _ _
      (hdig _ (by decide) pm0 hpm0) s2
    rw [hncy] at s3
    have s4 := prefix_of_prefix_replaceAll tYear y0 y' (by decide) _ _
      (hdig _ (by decide) y0 hy0) s3
    rw [h5] at s4
    simp at s4
  have e5 : tIDay.isPrefixOf ('<' :: replaceAll tIMonth (natChars d.month)
      (replaceAll tDay (pad2 d.day) (replaceAll tMonth (pad2 d.month)
        (replaceAll tYear (natChars d.year) u)))) = false := by
    rw [show tIDay = '<' :: ['i', '_', 'd', 'a', 'y', '>'] from rfl, cons_isPrefixOf_cons]
    simp [k5]
  rw [replaceAll_neg _ _ _ _ e5]
  have k6 : (['t', 'i', 't', 'l', 'e', '>'] : List Char).isPrefixOf
      (replaceAll tIDay (natChars d.day) (replaceAll tIMonth (natChars d.month)
        (replaceAll tDay (pad2 d.day) (replaceAll tMonth (pad2 d.month)
          (replaceAll tYear (natChars d.year) u))))) = false := by
    apply Bool.eq_false_iff.mpr
    intro htr
    rw [hncd] at htr
    have s1 := prefix_of_prefix_replaceAll tIDay d0 d' (by decide) _ _
      (hdig _ (by decide) d0 hd0) htr
    rw [hncm] at s1
    have s2 := prefix_of_prefix_replaceAll tIMonth m0 m' (by decide) _ _
      (hdig _ (by decide) m0 hm0) s1
    rw [hpd] at s2
    have s3 := prefix_of_prefix_replaceAll tDay pd0 pd' (by decide) _ _
      (hdig _ (by decide) pd0 hpd0) s2
    rw [hpm] at s3
    have s4 := prefix_of_prefix_replaceAll tMonth pm0 pm' (by decide) _ _
      (hdig _ (by decide) pm0 hpm0) s3
    rw [hncy] at s4
    have s5 := prefix_of_prefix_replaceAll tYear y0 y' (by decide) _ _
      (hdig _ (by decide) y0 hy0) s4
    rw [h6] at s5
    simp at s5
  have e6 : tTitle.isPrefixOf ('<' :: replaceAll tIDay (natChars d.day)
      (replaceAll tIMonth (natChars d.month) (replaceAll tDay (pad2 d.day)
        (replaceAll tMonth (pad2 d.month) (replaceAll tYear (natChars d.year) u))))) =
      false := by
    rw [show tTitle = '<' :: ['t', 'i', 't', 'l', 'e', '>'] from rfl, cons_isPrefixOf_cons]
    simp [k6]
  rw [replaceAll_neg _ _ _ _ e6]

theorem postUrl_core (d : Date) (slug : List Char) (hslug : '%' ∉ slug) :
    ∀ n : Nat, ∀ p : List Char, p.length ≤ n →
      strftime d (applySubs d slug (escapePct p)) = applySpecSubs d slug p := by
  intro n
  induction n with
  | zero =>
    intro p hp
    have hpnil : p = [] := List.length_eq_zero.mp (Nat.le_zero.mp hp)
    subst hpnil
    rw [escapePct_nil, applySubs_nil, applySpecSubs_nil]
    rfl
  | succ n ih =>
    intro p hp
    cases p with
    | nil =>
      rw [escapePct_nil, applySubs_nil, applySpecSubs_nil]
      rfl
    | cons c t =>
      by_cases hY : tYear.isPrefixOf (c :: t) = true
      · obtain ⟨t', ht'⟩ := List.isPrefixOf_iff_prefix.mp hY
        rw [← ht']
        rw [← ht'] at hp
        have hlen : t'.length ≤ n := by
          simp only [tYear, List.length_append, List.length_cons, List.length_nil] at hp
          omega
        rw [escapePct_block tYear t' (by decide), applySubs_tYear, strftime_pct_Y,
          applySpecSubs_tYear, ih t' hlen]
      · by_cases hM : tMonth.isPrefixOf (c :: t) = true
        · obtain ⟨t', ht'⟩ := List.isPrefixOf_iff_prefix.mp hM
          rw [← ht']
          rw [← ht'] at hp
          have hlen : t'.length ≤ n := by
            simp only [tMonth, List.length_append, List.length_cons, List.length_nil] at hp
            omega
          rw [escapePct_block tMonth t' (by decide), applySubs_tMonth, strftime_pct_m,
            applySpecSubs_tMonth, ih t' hlen]
        · by_cases hD : tDay.isPrefixOf (c :: t) = true
          · obtain ⟨t', ht'⟩ := List.isPrefixOf_iff_prefix.mp hD
            rw [← ht']
            rw [← ht'] at hp
            have hlen : t'.length ≤ n := by
              simp only [tDay, List.length_append, List.length_cons, List.length_nil] at hp
              omega
            rw [escapePct_block tDay t' (by decide), applySubs_tDay, strftime_pct_d,
              applySpecSubs_tDay, ih t' hlen]
          · by_cases hIM : tIMonth.isPrefixOf (c :: t) = true
            · obtain ⟨t', ht'⟩ := List.isPrefixOf_iff_prefix.mp hIM
              rw [← ht']
              rw [← ht'] at hp
              have hlen : t'.length ≤ n := by
                simp only [tIMonth, List.length_append, List.length_cons,
                  List.length_nil] at hp
                omega
              rw [escapePct_block tIMonth t' (by decide), applySubs_tIMonth,
                strftime_append_nopct d (natChars d.month) _ (not_mem_natChars _ (by decide)),
                applySpecSubs_tIMonth, ih t' hlen]
            · by_cases hID : tIDay.isPrefixOf (c :: t) = true
              · obtain ⟨t', ht'⟩ := List.isPrefixOf_iff_prefix.mp hID
                rw [← ht']
                rw [← ht'] at hp
                have hlen : t'.length ≤ n := by
                  simp only [tIDay, List.length_append, List.length_cons,
                    List.length_nil] at hp
                  omega
                rw [escapePct_block tIDay t' (by decide), applySubs_tIDay,
                  strftime_append_nopct d (natChars d.day) _
                    (not_mem_natChars _ (by decide)),
                  applySpecSubs_tIDay, ih t' hlen]
              · by_cases hT : tTitle.isPrefixOf (c :: t) = true
                · obtain ⟨t', ht'⟩ := List.isPrefixOf_iff_prefix.mp hT
                  rw [← ht']
                  rw [← ht'] at hp
                  have hlen : t'.length ≤ n := by
                    simp only [tTitle, List.length_append, List.length_cons,
                      List.length_nil] at hp
                    omega
                  rw [escapePct_block tTitle t' (by decide), applySubs_tTitle,
                    strftime_append_nopct d slug _ hslug,
                    applySpecSubs_tTitle, ih t' hlen]
                · have hlen : t.length ≤ n := by
                    simp only [List.length_cons] at hp
                    omega
                  by_cases hc : c = '%'
                  · subst hc
                    rw [escapePct_pct, applySubs_cons_ne d slug '%' _ (by decide),
                      applySubs_cons_ne d slug '%' _ (by decide), strftime_pct_pct,
                      applySpecSubs_cons_ne d slug '%' t (by decide), ih t hlen]
                  · by_cases hlt : c = '<'
                    · subst hlt
                      have g1 : (['y', 'e', 'a', 'r', '>'] : List Char).isPrefixOf t =
                          false := by
                        apply Bool.eq_false_iff.mpr
                        intro htr
                        apply hY
                        rw [show tYear = '<' :: ['y', 'e', 'a', 'r', '>'] from rfl,
                          cons_isPrefixOf_cons]
                        simp [htr]
                      have g2 : (['m', 'o', 'n', 't', 'h', '>'] : List Char).isPrefixOf t =
                          false := by
                        apply Bool.eq_false_iff.mpr
                        intro htr
                        apply hM
                        rw [show tMonth = '<' :: ['m', 'o', 'n', 't', 'h', '>'] from rfl,
                          cons_isPrefixOf_cons]
                        simp [htr]
                      have g3 : (['d', 'a', 'y', '>'] : List Char).isPrefixOf t =
                          false := by
                        apply Bool.eq_false_iff.mpr
                        intro htr
                        apply hD
                        rw [show tDay = '<' :: ['d', 'a', 'y', '>'] from rfl,
                          cons_isPrefixOf_cons]
                        simp [htr]
                      have g4 : (['i', '_', 'm', 'o', 'n', 't', 'h', '>'] :
                          List Char).isPrefixOf t = false := by
                        apply Bool.eq_false_iff.mpr
                        intro htr
                        apply hIM
                        rw [show tIMonth = '<' :: ['i', '_', 'm', 'o', 'n', 't', 'h', '>']
                          from rfl, cons_isPrefixOf_cons]
                        simp [htr]
                      have g5 : (['i', '_', 'd', 'a', 'y', '>'] : List Char).isPrefixOf t =
                          false := by
                        apply Bool.eq_false_iff.mpr
                        intro htr
                        apply hID
                        rw [show tIDay = '<' :: ['i', '_', 'd', 'a', 'y', '>'] from rfl,
                          cons_isPrefixOf_cons]
                        simp [htr]
                      have g6 : (['t', 'i', 't', 'l', 'e', '>'] : List Char).isPrefixOf t =
                          false := by
                        apply Bool.eq_false_iff.mpr
                        intro htr
                        apply hT
                        rw [show tTitle = '<' :: ['t', 'i', 't', 'l', 'e', '>'] from rfl,
                          cons_isPrefixOf_cons]
                        simp [htr]
                      have ge : ∀ v : List Char, '%' ∉ v → v.isPrefixOf t = false →
                          v.isPrefixOf (escapePct t) = false := by
                        intro v hv hvt
                        apply Bool.eq_false_iff.mpr
                        intro htr
                        have hs := prefix_of_prefix_replaceAll ['%'] '%' ['%'] (by decide)
                          t v hv htr
                        rw [hvt] at hs
                        simp at hs
                      rw [escapePct_cons_ne '<' t (by decide),
                        applySubs_lt_cons d slug (escapePct t)
                          (ge _ (by decide) g1) (ge _ (by decide) g2) (ge _ (by decide) g3)
                          (ge _ (by decide) g4) (ge _ (by decide) g5) (ge _ (by decide) g6),
                        strftime_cons_ne d '<' _ (by decide),
                        applySpecSubs_lt_cons d slug t g1 g2 g3 g4 g5 g6, ih t hlen]
                    · rw [escapePct_cons_ne c t hc, applySubs_cons_ne d slug c _ hlt,
                        strftime_cons_ne d c _ hc,
                        applySpecSubs_cons_ne d slug c t hlt, ih t hlen]

/-- C3: for every `posts_url` pattern, post date and slug (with no percent
sign in the slug), `_get_post_url` resolves the pattern exactly as the
spec's direct placeholder substitution does: every literal percent character
of the pattern — escaped to `%%` before `strftime` and restored by it —
appears unchanged in the returned URL. -/
theorem mynt_post_url_percent_unchanged (postsUrl : List Char) (d : Date)
    (slug : List Char) (hslug : '%' ∉ slug) :
    getPostUrl postsUrl d slug = resolvePostUrlSpec postsUrl d slug :=
  postUrl_core d slug hslug postsUrl.length postsUrl le_rfl

/-- Witness for C3 at the spec's own example pattern `/archive/100%/<title>/`:
the literal `100%` survives resolution intact. -/
theorem mynt_post_url_percent_unchanged_witness :
    getPostUrl ("/archive/100%/<title>/".toList) ⟨2020, 1, 5⟩ ("hello".toList) =
        resolvePostUrlSpec ("/archive/100%/<title>/".toList) ⟨2020, 1, 5⟩ ("hello".toList) ∧
      resolvePostUrlSpec ("/archive/100%/<title>/".toList) ⟨2020, 1, 5⟩ ("hello".toList) =
        "/archive/100%/hello/".toList :=
  ⟨mynt_post_url_percent_unchanged _ _ _ (by decide), by decide⟩

/-- Python `s.endswith(suffix)`. -/
def pyEndsWith (s suffix : List Char) : Bool := suffix.isSuffixOf s

/-- Python `s.split(sep)` for a one-character separator: the pieces between
separator occurrences, empty pieces included. -/
def pySplit (sep : Char) : List Char → List (List Char)
  | [] => [[]]
  | c :: t =>
    if c = sep then [] :: pySplit sep t
    else
      match pySplit sep t with
      | [] => [[c]]
      | p :: ps => (c :: p) :: ps

/-- `Mynt._get_tag_url`: `'{0}/{1}{2}'.format(tags_url, name, end)`, where
`end` is `'/'` when the configured `tags_url` ends with `'/'` and `'.html'`
otherwise. -/
def getTagUrl (tagsUrl name : List Char) : List Char :=
  tagsUrl ++ ['/'] ++ name ++
    (if pyEndsWith tagsUrl ['/'] then ['/'] else ['.', 'h', 't', 'm', 'l'])

/-- C4: the tag-URL resolver appends the name as a new path segment ending
in `'/'` when the `tags_url` pattern ends with the path separator, and with
an explicit `.html` suffix otherwise. -/
theorem mynt_tag_url_shape (tagsUrl name : List Char) :
    (pyEndsWith tagsUrl ['/'] = true →
      getTagUrl tagsUrl name = tagsUrl ++ ['/'] ++ name ++ ['/']) ∧
    (pyEndsWith tagsUrl ['/'] = false →
      getTagUrl tagsUrl name = tagsUrl ++ ['/'] ++ name ++ ['.', 'h', 't', 'm', 'l']) := by
  constructor <;> intro h <;> simp [getTagUrl, h]

/-- Witness for C4 on both branches of the default-style configurations. -/
theorem mynt_tag_url_shape_witness :
    getTagUrl ("/tags/".toList) ("go".toList) = "/tags//go/".toList ∧
    getTagUrl ("/tags".toList) ("go".toList) = "/tags/go.html".toList := by
  constructor
  · rw [(mynt_tag_url_shape ("/tags/".toList) ("go".toList)).1 (by decide)]
    decide
  · rw [(mynt_tag_url_shape ("/tags".toList) ("go".toList)).2 (by decide)]
    decide

/-- The literal `'index.html'` appended by `_get_path`. -/
def indexHtml : List Char := ['i', 'n', 'd', 'e', 'x', '.', 'h', 't', 'm', 'l']

/-- `Mynt._get_path`: build the part list `[dest] + url.split('/')`, append
`'index.html'` when the URL ends with `'/'`, and hand the parts to the
path-joining collaborator (`mynt.utils.normpath`, kept abstract as `join`). -/
def getPath (join : List (List Char) → List Char) (destPath url : List Char) : List Char :=
  join ((destPath :: pySplit '/' url) ++
    (if pyEndsWith url ['/'] then [indexHtml] else []))

/-- C9: a URL ending in `'/'` maps to the joined segments under the
destination root with `index.html` as the final component; any other URL
maps to the joined segments with no suffix added. -/
theorem mynt_page_path_layout (join : List (List Char) → List Char)
    (destPath url : List Char) :
    (pyEndsWith url ['/'] = true →
      getPath join destPath url = join (destPath :: pySplit '/' url ++ [indexHtml])) ∧
    (pyEndsWith url ['/'] = false →
      getPath join destPath url = join (destPath :: pySplit '/' url)) := by
  constructor <;> intro h <;> simp [getPath, h]

/-- Witness for C9 with slash-joining as the path collaborator. -/
theorem mynt_page_path_layout_witness :
    getPath (List.intercalate ['/']) ("/dest".toList) ("/2020/01/t/".toList) =
      "/dest//2020/01/t//index.html".toList ∧
    getPath (List.intercalate ['/']) ("/dest".toList) ("/feed.xml".toList) =
      "/dest//feed.xml".toList := by
  constructor
  · rw [(mynt_page_path_layout (List.intercalate ['/']) ("/dest".toList)
      ("/2020/01/t/".toList)).1 (by decide)]
    decide
  · rw [(mynt_page_path_layout (List.intercalate ['/']) ("/dest".toList)
      ("/feed.xml".toList)).2 (by decide)]
    decide

/-- The per-post data `_parse` builds: the derived timestamp and the
(sorted) tag list; the other dictionary entries play no role in the claims
below. -/
structure PostData where
  timestamp : Int
  tags : List String
deriving DecidableEq

/-- One entry of the `sorting` list `_parse` builds while finalizing the tag
collection: name, member count, members (timestamp-descending) and tag URL. -/
structure TagEntry where
  name : String
  count : Nat
  posts : List PostData
  url : List Char

/-- The tag-finalization block of `Mynt._parse`: build one entry per tag
(with its member list stably sorted by timestamp descending and its count),
stably sort the entries by lowercased name ascending, then stably sort them
by member count descending.  Python's stable `list.sort` is modelled by the
stable `List.insertionSort`. -/
def finalizeTags (tagsUrl : List Char) (tags : List (String × List PostData)) :
    List TagEntry :=
  let sorting := tags.map fun nv =>
    let posts := List.insertionSort (fun p q => q.timestamp ≤ p.timestamp) nv.2
    ⟨nv.1, posts.length, posts, getTagUrl tagsUrl nv.1.toList⟩
  let sorting := List.insertionSort (fun a b => a.name.toLower ≤ b.name.toLower) sorting
  List.insertionSort (fun a b => b.count ≤ a.count) sorting

instance : IsTotal TagEntry fun a b => a.name.toLower ≤ b.name.toLower :=
  ⟨fun _ _ => le_total _ _⟩

instance : IsTrans TagEntry fun a b => a.name.toLower ≤ b.name.toLower :=
  ⟨fun _ _ _ h h' => le_trans h h'⟩

theorem orderedInsert_pairwise_tag (a : TagEntry) :
    ∀ s : List TagEntry,
      s.Pairwise (fun A B => B.count ≤ A.count ∧
        (A.count = B.count → A.name.toLower ≤ B.name.toLower)) →
      (∀ x ∈ s, a.name.toLower ≤ x.name.toLower) →
      (List.orderedInsert (fun a b => b.count ≤ a.count) a s).Pairwise
        (fun A B => B.count ≤ A.count ∧
          (A.count = B.count → A.name.toLower ≤ B.name.toLower)) := by
  intro s
  induction s with
  | nil =>
    intro _ _
    simp [List.orderedInsert]
  | cons b t ih =>
    intro hp ha
    rcases List.pairwise_cons.mp hp with ⟨hb, ht⟩
    rw [List.orderedInsert]
    by_cases hr : b.count ≤ a.count
    · rw [if_pos hr]
      refine List.pairwise_cons.mpr ⟨?_, hp⟩
      intro x hx
      rcases List.mem_cons.mp hx with rfl | hx
      · exact ⟨hr, fun _ => ha x (List.mem_cons_self _ _)⟩
      · have hbx := hb x hx
        exact ⟨le_trans hbx.1 hr, fun _ => ha x (List.mem_cons_of_mem _ hx)⟩
    · rw [if_neg hr]
      refine List.pairwise_cons.mpr
        ⟨?_, ih ht (fun x hx => ha x (List.mem_cons_of_mem _ hx))⟩
      intro y hy
      rcases (List.mem_orderedInsert _).mp hy with heq | hy
      · rw [heq]
        have hlt : a.count < b.count := Nat.lt_of_not_le hr
        exact ⟨hlt.le, fun he => absurd he (by omega)⟩
      · exact hb y hy

theorem pairwise_insertionSort_count :
    ∀ l : List TagEntry,
      l.Pairwise (fun a b => a.name.toLower ≤ b.name.toLower) →
      (List.insertionSort (fun a b => b.count ≤ a.count) l).Pairwise
        (fun A B => B.count ≤ A.count ∧
          (A.count = B.count → A.name.toLower ≤ B.name.toLower)) := by
  intro l
  induction l with
  | nil =>
    intro _
    simp [List.insertionSort]
  | cons a t ih =>
    intro hl
    rcases List.pairwise_cons.mp hl with ⟨ha, ht⟩
    rw [List.insertionSort]
    apply orderedInsert_pairwise_tag
    · exact ih ht
    · intro x hx
      exact ha x ((List.perm_insertionSort _ t).mem_iff.mp hx)

/-- C1: in the finalized tag collection, any tag with the larger member
count precedes, and among equal counts the tag whose lowercased name is
smaller precedes: the final order is pairwise count-descending with
case-insensitive name-ascending tie-break. -/
theorem mynt_tag_collection_order (tagsUrl : List Char)
    (tags : List (String × List PostData)) :
    (finalizeTags tagsUrl tags).Pairwise
      (fun A B => B.count ≤ A.count ∧
        (A.count = B.count → A.name.toLower ≤ B.name.toLower)) := by
  unfold finalizeTags
  apply pairwise_insertionSort_count
  exact List.sorted_insertionSort _ _

/-- The `&amp;` entity. -/
def eAmp : List Char := ['&', 'a', 'm', 'p', ';']

/-- The `&gt;` entity. -/
def eGt : List Char := ['&', 'g', 't', ';']

/-- The `&lt;` entity. -/
def eLt : List Char := ['&', 'l', 't', ';']

/-- The `&quot;` entity. -/
def eQuot : List Char := ['&', 'q', 'u', 'o', 't', ';']

/-- The entity-unescaping loop of `Mynt._highlight`: four sequential
`str.replace` passes in the order of the source's list literal —
`&amp;` first, then `&gt;`, `&lt;`, `&quot;`. -/
def unescape (code : List Char) : List Char :=
  replaceAll eQuot ['"']
    (replaceAll eLt ['<']
      (replaceAll eGt ['>']
        (replaceAll eAmp ['&'] code)))

/-- Spec-side reference unescaping, following the claim's words: one left to
right scan in which each entity occurrence maps to exactly one literal
character and every other character is copied verbatim. -/
def unescapeSim : List Char → List Char
  | '&' :: 'a' :: 'm' :: 'p' :: ';' :: t => '&' :: unescapeSim t
  | '&' :: 'g' :: 't' :: ';' :: t => '>' :: unescapeSim t
  | '&' :: 'l' :: 't' :: ';' :: t => '<' :: unescapeSim t
  | '&' :: 'q' :: 'u' :: 'o' :: 't' :: ';' :: t => '"' :: unescapeSim t
  | c :: t => c :: unescapeSim t
  | [] => []

/-- Whether `pat` occurs as a substring. -/
def hasSub (pat : List Char) : List Char → Bool
  | [] => pat.isEmpty
  | c :: t => pat.isPrefixOf (c :: t) || hasSub pat t

/-- Whether the string contains an `&amp;` immediately followed by `gt;`,
`lt;` or `quot;` — the inputs on which the sequential passes cascade. -/
def hasBadAmp (s : List Char) : Bool :=
  hasSub (eAmp ++ ['g', 't', ';']) s || hasSub (eAmp ++ ['l', 't', ';']) s ||
    hasSub (eAmp ++ ['q', 'u', 'o', 't', ';']) s

theorem unescapeSim_amp (t : List Char) : unescapeSim (eAmp ++ t) = '&' :: unescapeSim t :=
  rfl

theorem unescapeSim_gt (t : List Char) : unescapeSim (eGt ++ t) = '>' :: unescapeSim t :=
  rfl

theorem unescapeSim_lt (t : List Char) : unescapeSim (eLt ++ t) = '<' :: unescapeSim t :=
  rfl

theorem unescapeSim_quot (t : List Char) : unescapeSim (eQuot ++ t) = '"' :: unescapeSim t :=
  rfl

set_option maxHeartbeats 1600000 in
theorem unescapeSim_cons_ne (c : Char) (t : List Char) (hc : c ≠ '&') :
    unescapeSim (c :: t) = c :: unescapeSim t := by
  rw [unescapeSim.eq_def]
  split
  · rename_i t1 heq
    injection heq with h1 _
    exact absurd h1 hc
  · rename_i t1 heq
    injection heq with h1 _
    exact absurd h1 hc
  · rename_i t1 heq
    injection heq with h1 _
    exact absurd h1 hc
  · rename_i t1 heq
    injection heq with h1 _
    exact absurd h1 hc
  · rename_i x4 c2 t2 n1 n2 n3 n4 heq
    injection heq with h1 h2
    rw [h1, h2]
  · rename_i x heq
    simp at heq

set_option maxHeartbeats 1600000 in
theorem unescapeSim_amp_head (t : List Char)
    (h1 : (['a', 'm', 'p', ';'] : List Char).isPrefixOf t = false)
    (h2 : (['g', 't', ';'] : List Char).isPrefixOf t = false)
    (h3 : (['l', 't', ';'] : List Char).isPrefixOf t = false)
    (h4 : (['q', 'u', 'o', 't', ';'] : List Char).isPrefixOf t = false) :
    unescapeSim ('&' :: t) = '&' :: unescapeSim t := by
  rw [unescapeSim.eq_def]
  split
  · rename_i t1 heq
    injection heq with _ h
    rw [h] at h1
    simp [List.isPrefixOf] at h1
  · rename_i t1 heq
    injection heq with _ h
    rw [h] at h2
    simp [List.isPrefixOf] at h2
  · rename_i t1 heq
    injection heq with _ h
    rw [h] at h3
    simp [List.isPrefixOf] at h3
  · rename_i t1 heq
    injection heq with _ h
    rw [h] at h4
    simp [List.isPrefixOf] at h4
  · rename_i x4 c2 t2 n1 n2 n3 n4 heq
    injection heq with hA hB
    rw [hA, hB]
  · rename_i x heq
    simp at heq

theorem isPrefixOf_append_cancel (a v u : List Char) :
    (a ++ v).isPrefixOf (a ++ u) = v.isPrefixOf u := by
  induction a with
  | nil => rfl
  | cons c a' ih =>
    simp only [List.cons_append, cons_isPrefixOf_cons, beq_self_eq_true, Bool.true_and]
    exact ih

theorem hasSub_head_false {pat : List Char} {c : Char} {t : List Char}
    (h : hasSub pat (c :: t) = false) :
    pat.isPrefixOf (c :: t) = false ∧ hasSub pat t = false := by
  simp only [hasSub, Bool.or_eq_false_iff] at h
  exact h

theorem hasSub_drop (pat : List Char) : ∀ (s : List Char) (n : Nat),
    hasSub pat s = false → hasSub pat (s.drop n) = false := by
  intro s
  induction s with
  | nil =>
    intro n h
    rwa [List.drop_nil]
  | cons c t ih =>
    intro n h
    cases n with
    | zero => exact h
    | succ n =>
      rw [List.drop_succ_cons]
      exact ih n (hasSub_head_false h).2

theorem hasBadAmp_drop (s : List Char) (n : Nat) (h : hasBadAmp s = false) :
    hasBadAmp (s.drop n) = false := by
  simp only [hasBadAmp, Bool.or_eq_false_iff] at h ⊢
  exact ⟨⟨hasSub_drop _ s n h.1.1, hasSub_drop _ s n h.1.2⟩, hasSub_drop _ s n h.2⟩

theorem unescape_eq_sim_core : ∀ (n : Nat) (s : List Char), s.length ≤ n →
    hasBadAmp s = false → unescape s = unescapeSim s := by
  intro n
  induction n with
  | zero =>
    intro s hs _
    have hnil : s = [] := List.length_eq_zero.mp (Nat.le_zero.mp hs)
    subst hnil
    rfl
  | succ n ih =>
    intro s hs hbad
    by_cases hA : eAmp.isPrefixOf s = true
    · obtain ⟨t, ht⟩ := List.isPrefixOf_iff_prefix.mp hA
      subst ht
      have hlen : t.length ≤ n := by
        simp only [eAmp, List.length_append, List.length_cons, List.length_nil] at hs
        omega
      have hbad' : hasBadAmp t = false := hasBadAmp_drop (eAmp ++ t) 5 hbad
      simp only [hasBadAmp, Bool.or_eq_false_iff] at hbad
      obtain ⟨⟨hb1, hb2⟩, hb3⟩ := hbad
      have hg' : (eAmp ++ ['g', 't', ';']).isPrefixOf (eAmp ++ t) = false :=
        (hasSub_head_false hb1).1
      have hl' : (eAmp ++ ['l', 't', ';']).isPrefixOf (eAmp ++ t) = false :=
        (hasSub_head_false hb2).1
      have hq' : (eAmp ++ ['q', 'u', 'o', 't', ';']).isPrefixOf (eAmp ++ t) = false :=
        (hasSub_head_false hb3).1
      rw [isPrefixOf_append_cancel] at hg' hl' hq'
      unfold unescape
      rw [replaceAll_match eAmp ['&'] t (by decide), List.singleton_append]
      have e2 : eGt.isPrefixOf ('&' :: replaceAll eAmp ['&'] t) = false := by
        rw [show eGt = '&' :: ['g', 't', ';'] from rfl, cons_isPrefixOf_cons]
        simp only [beq_self_eq_true, Bool.true_and]
        apply Bool.eq_false_iff.mpr
        intro htr
        have hp := prefix_of_prefix_replaceAll eAmp '&' [] (by decide) t _ (by decide) htr
        rw [hg'] at hp
        simp at hp
      rw [replaceAll_neg _ _ _ _ e2]
      have e3 : eLt.isPrefixOf ('&' :: replaceAll eGt ['>']
          (replaceAll eAmp ['&'] t)) = false := by
        rw [show eLt = '&' :: ['l', 't', ';'] from rfl, cons_isPrefixOf_cons]
        simp only [beq_self_eq_true, Bool.true_and]
        apply Bool.eq_false_iff.mpr
        intro htr
        have hp1 := prefix_of_prefix_replaceAll eGt '>' [] (by decide) _ _ (by decide) htr
        have hp2 := prefix_of_prefix_replaceAll eAmp '&' [] (by decide) _ _ (by decide) hp1
        rw [hl'] at hp2
        simp at hp2
      rw [replaceAll_neg _ _ _ _ e3]
      have e4 : eQuot.isPrefixOf ('&' :: replaceAll eLt ['<'] (replaceAll eGt ['>']
          (replaceAll eAmp ['&'] t))) = false := by
        rw [show eQuot = '&' :: ['q', 'u', 'o', 't', ';'] from rfl, cons_isPrefixOf_cons]
        simp only [beq_self_eq_true, Bool.true_and]
        apply Bool.eq_false_iff.mpr
        intro htr
        have hp1 := prefix_of_prefix_replaceAll eLt '<' [] (by decide) _ _ (by decide) htr
        have hp2 := prefix_of_prefix_replaceAll eGt '>' [] (by decide) _ _ (by decide) hp1
        have hp3 := prefix_of_prefix_replaceAll eAmp '&' [] (by decide) _ _ (by decide) hp2
        rw [hq'] at hp3
        simp at hp3
      rw [replaceAll_neg _ _ _ _ e4]
      rw [unescapeSim_amp]
      exact congrArg ('&' :: ·) (ih t hlen hbad')
    · by_cases hG : eGt.isPrefixOf s = true
      · obtain ⟨t, ht⟩ := List.isPrefixOf_iff_prefix.mp hG
        subst ht
        have hlen : t.length ≤ n := by
          simp only [eGt, List.length_append, List.length_cons, List.length_nil] at hs
          omega
        have hbad' : hasBadAmp t = false := hasBadAmp_drop (eGt ++ t) 4 hbad
        unfold unescape
        rw [replaceAll_skip_lit2 eAmp ['&'] eGt t '&' (by decide) (by decide) (by decide)
            (by decide),
          replaceAll_match eGt ['>'] _ (by decide), List.singleton_append,
          replaceAll_skip_cons eLt ['<'] '&' '>' (by decide) (by decide),
          replaceAll_skip_cons eQuot ['"'] '&' '>' (by decide) (by decide),
          unescapeSim_gt]
        exact congrArg ('>' :: ·) (ih t hlen hbad')
      · by_cases hL : eLt.isPrefixOf s = true
        · obtain ⟨t, ht⟩ := List.isPrefixOf_iff_prefix.mp hL
          subst ht
          have hlen : t.length ≤ n := by
            simp only [eLt, List.length_append, List.length_cons, List.length_nil] at hs
            omega
          have hbad' : hasBadAmp t = false := hasBadAmp_drop (eLt ++ t) 4 hbad
          unfold unescape
          rw [replaceAll_skip_lit2 eAmp ['&'] eLt t '&' (by decide) (by decide) (by decide)
              (by decide),
            replaceAll_skip_lit2 eGt ['>'] eLt _ '&' (by decide) (by decide) (by decide)
              (by decide),
            replaceAll_match eLt ['<'] _ (by decide), List.singleton_append,
            replaceAll_skip_cons eQuot ['"'] '&' '<' (by decide) (by decide),
            unescapeSim_lt]
          exact congrArg ('<' :: ·) (ih t hlen hbad')
        · by_cases hQ : eQuot.isPrefixOf s = true
          · obtain ⟨t, ht⟩ := List.isPrefixOf_iff_prefix.mp hQ
            subst ht
            have hlen : t.length ≤ n := by
              simp only [eQuot, List.length_append, List.length_cons,
                List.length_nil] at hs
              omega
            have hbad' : hasBadAmp t = false := hasBadAmp_drop (eQuot ++ t) 6 hbad
            unfold unescape
            rw [replaceAll_skip_lit2 eAmp ['&'] eQuot t '&' (by decide) (by decide)
                (by decide) (by decide),
              replaceAll_skip_lit2 eGt ['>'] eQuot _ '&' (by decide) (by decide)
                (by decide) (by decide),
              replaceAll_skip_lit2 eLt ['<'] eQuot _ '&' (by decide) (by decide)
                (by decide) (by decide),
              replaceAll_match eQuot ['"'] _ (by decide), List.singleton_append,
              unescapeSim_quot]
            exact congrArg ('"' :: ·) (ih t hlen hbad')
          · cases s with
            | nil => rfl
            | cons c t =>
              have hlen : t.length ≤ n := by
                simp only [List.length_cons] at hs
                omega
              have hbad' : hasBadAmp t = false := hasBadAmp_drop (c :: t) 1 hbad
              by_cases hc : c = '&'
              · subst hc
                have hA' := Bool.eq_false_iff.mpr hA
                have hG' := Bool.eq_false_iff.mpr hG
                have hL' := Bool.eq_false_iff.mpr hL
                have hQ' := Bool.eq_false_iff.mpr hQ
                rw [show eAmp = '&' :: ['a', 'm', 'p', ';'] from rfl,
                  cons_isPrefixOf_cons] at hA'
                rw [show eGt = '&' :: ['g', 't', ';'] from rfl,
                  cons_isPrefixOf_cons] at hG'
                rw [show eLt = '&' :: ['l', 't', ';'] from rfl,
                  cons_isPrefixOf_cons] at hL'
                rw [show eQuot = '&' :: ['q', 'u', 'o', 't', ';'] from rfl,
                  cons_isPrefixOf_cons] at hQ'
                simp only [beq_self_eq_true, Bool.true_and] at hA' hG' hL' hQ'
                unfold unescape
                rw [replaceAll_neg _ _ _ _ (by
                  rw [show eAmp = '&' :: ['a', 'm', 'p', ';'] from rfl,
                    cons_isPrefixOf_cons]
                  simp only [beq_self_eq_true, Bool.true_and]
                  exact hA')]
                have e2 : eGt.isPrefixOf ('&' :: replaceAll eAmp ['&'] t) = false := by
                  rw [show eGt = '&' :: ['g', 't', ';'] from rfl, cons_isPrefixOf_cons]
                  simp only [beq_self_eq_true, Bool.true_and]
                  apply Bool.eq_false_iff.mpr
                  intro htr
                  have hp := prefix_of_prefix_replaceAll eAmp '&' [] (by decide) t _
                    (by decide) htr
                  rw [hG'] at hp
                  simp at hp
                rw [replaceAll_neg _ _ _ _ e2]
                have e3 : eLt.isPrefixOf ('&' :: replaceAll eGt ['>']
                    (replaceAll eAmp ['&'] t)) = false := by
                  rw [show eLt = '&' :: ['l', 't', ';'] from rfl, cons_isPrefixOf_cons]
                  simp only [beq_self_eq_true, Bool.true_and]
                  apply Bool.eq_false_iff.mpr
                  intro htr
                  have hp1 := prefix_of_prefix_replaceAll eGt '>' [] (by decide) _ _
                    (by decide) htr
                  have hp2 := prefix_of_prefix_replaceAll eAmp '&' [] (by decide) _ _
                    (by decide) hp1
                  rw [hL'] at hp2
                  simp at hp2
                rw [replaceAll_neg _ _ _ _ e3]
                have e4 : eQuot.isPrefixOf ('&' :: replaceAll eLt ['<']
                    (replaceAll eGt ['>'] (replaceAll eAmp ['&'] t))) = false := by
                  rw [show eQuot = '&' :: ['q', 'u', 'o', 't', ';'] from rfl,
                    cons_isPrefixOf_cons]
                  simp only [beq_self_eq_true, Bool.true_and]
                  apply Bool.eq_false_iff.mpr
                  intro htr
                  have hp1 := prefix_of_prefix_replaceAll eLt '<' [] (by decide) _ _
                    (by decide) htr
                  have hp2 := prefix_of_prefix_replaceAll eGt '>' [] (by decide) _ _
                    (by decide) hp1
                  have hp3 := prefix_of_prefix_replaceAll eAmp '&' [] (by decide) _ _
                    (by decide) hp2
                  rw [hQ'] at hp3
                  simp at hp3
                rw [replaceAll_neg _ _ _ _ e4]
                rw [unescapeSim_amp_head t hA' hG' hL' hQ']
                exact congrArg ('&' :: ·) (ih t hlen hbad')
              · unfold unescape
                rw [replaceAll_skip_cons eAmp ['&'] '&' c (by decide)
                    (fun e => hc e.symm),
                  replaceAll_skip_cons eGt ['>'] '&' c (by decide)
                    (fun e => hc e.symm),
                  replaceAll_skip_cons eLt ['<'] '&' c (by decide)
                    (fun e => hc e.symm),
                  replaceAll_skip_cons eQuot ['"'] '&' c (by decide)
                    (fun e => hc e.symm),
                  unescapeSim_cons_ne c t hc]
                exact congrArg (c :: ·) (ih t hlen hbad')

/-- C6 counterexample: on the escaped input `&amp;gt;` the sequential
unescaping of `_highlight` hands `>` to the lexer, while mapping each entity
occurrence to exactly one literal character (the single `&amp;` occurrence
to `&`) would hand over `&gt;` — so the claim's "each entity occurrence maps
to exactly one literal character, and no other transformation" fails. -/
theorem mynt_unescape_cex :
    unescape ("&amp;gt;".toList) = ">".toList ∧
      unescapeSim ("&amp;gt;".toList) = "&gt;".toList ∧
      unescape ("&amp;gt;".toList) ≠ unescapeSim ("&amp;gt;".toList) :=
  ⟨by decide, by decide, by decide⟩

/-- C6 (amended): `_highlight` replaces the four entity escapes by their
literal characters through four sequential passes in the order `&amp;`,
`&gt;`, `&lt;`, `&quot;`; provided the input contains no `&amp;` immediately
followed by `gt;`, `lt;` or `quot;`, each entity occurrence maps to exactly
one literal character in the text handed to the lexer and nothing else is
transformed (on such adjacent occurrences the literal `&` produced by the
`&amp;` pass is unescaped again, e.g. `&amp;gt;` yields `>`). -/
theorem mynt_unescape_entities (code : List Char) (h : hasBadAmp code = false) :
    unescape code = unescapeSim code :=
  unescape_eq_sim_core code.length code le_rfl h

/-- Witness for the amended C6 on a typical escaped code fragment. -/
theorem mynt_unescape_entities_witness :
    hasBadAmp ("if a &lt;= b &amp;&amp; c &gt; d: s = &quot;x&quot;".toList) = false ∧
      unescape ("if a &lt;= b &amp;&amp; c &gt; d: s = &quot;x&quot;".toList) =
        unescapeSim ("if a &lt;= b &amp;&amp; c &gt; d: s = &quot;x&quot;".toList) ∧
      unescapeSim ("if a &lt;= b &amp;&amp; c &gt; d: s = &quot;x&quot;".toList) =
        "if a <= b && c > d: s = \"x\"".toList :=
  ⟨by decide, mynt_unescape_entities _ (by decide), by decide⟩

/-- A Pygments lexer, identified by name (external collaborator). -/
structure Lexer where
  name : String
deriving DecidableEq

/-- The Pygments HTML formatter configuration `_highlight` builds:
`HtmlFormatter(linenos = 'table')`. -/
structure HtmlFormatter where
  linenos : String

/-- Errors of the highlight collaborators. -/
inductive HighlightErr where
  | classNotFound
deriving DecidableEq

/-- `Mynt._highlight` on one matched code block: unescape the four HTML
entities, look the language up in the lexer registry (`get_lexer_by_name`,
modelled as a partial map; `ClassNotFound` is `none`), fall back to the
`'text'` lexer on a miss, highlight with the table line-number formatter
(`highlight` kept abstract as `highlightF`), and wrap the result in the
fixed two-level container. -/
def hiliteBlock (getLexerByName : String → Option Lexer)
    (highlightF : Lexer → HtmlFormatter → List Char → List Char)
    (language : String) (code : List Char) : Except HighlightErr (List Char) :=
  let code := unescape code
  match getLexerByName language with
  | some lexer => Except.ok (wrapCodeDiv (highlightF lexer ⟨"table"⟩ code))
  | none =>
    match getLexerByName "text" with
    | some lexer => Except.ok (wrapCodeDiv (highlightF lexer ⟨"table"⟩ code))
    | none => Except.error HighlightErr.classNotFound
where
  /-- `'<div class="code"><div>{0}</div></div>'.format(code)`. -/
  wrapCodeDiv (body : List Char) : List Char :=
    "<div class=\"code\"><div>".toList ++ body ++ "</div></div>".toList

/-- C5: a code block whose language has no registered lexer does not make
the highlight pass fail: it is highlighted with the plain-text lexer, with
the table line-number formatter, and still wrapped in the fixed
`<div class="code"><div>…</div></div>` container. -/
theorem mynt_highlight_fallback (getLexerByName : String → Option Lexer)
    (highlightF : Lexer → HtmlFormatter → List Char → List Char)
    (language : String) (code : List Char) (textLexer : Lexer)
    (hmiss : getLexerByName language = none)
    (htext : getLexerByName "text" = some textLexer) :
    hiliteBlock getLexerByName highlightF language code =
      Except.ok (hiliteBlock.wrapCodeDiv
        (highlightF textLexer ⟨"table"⟩ (unescape code))) := by
  unfold hiliteBlock
  rw [hmiss, htext]

/-- Witness for C5: an unregistered language name on a concrete registry
that only knows the `'text'` lexer. -/
theorem mynt_highlight_fallback_witness :
    hiliteBlock (fun s => if s = "text" then some ⟨"text"⟩ else none)
        (fun _ _ c => c) "nosuchlang" ("x &amp; y".toList) =
      Except.ok (hiliteBlock.wrapCodeDiv ("x & y".toList)) := by
  rw [mynt_highlight_fallback (fun s => if s = "text" then some ⟨"text"⟩ else none)
    (fun _ _ c => c) "nosuchlang" ("x &amp; y".toList) ⟨"text"⟩ (by decide) (by decide)]
  have h : unescape ("x &amp; y".toList) = "x & y".toList := by decide
  rw [h]

/-- The lazy body search of the excerpt regexp: after a leading `<p>`, the
shortest non-empty body such that `</p>` immediately follows. -/
def pSearch : List Char → Option (List Char)
  | [] => none
  | c :: t =>
    if (['<', '/', 'p', '>'] : List Char).isPrefixOf t then some [c]
    else (pSearch t).map (c :: ·)

/-- The excerpt extraction of `_parse`:
`re.search(r'\A.*?(<p>.+?</p>)?', content, re.M | re.S).group(1)`.
Under Python's backtracking semantics the lazy `.*?` prefers zero width and
the optional group, once its single greedy attempt at position 0 fails,
matches empty — after which the whole pattern has succeeded and nothing
forces the lazy prefix to grow.  The group therefore participates only when
the content itself starts with `<p>` and a matching `</p>` follows a
non-empty body; otherwise `group(1)` is `None`. -/
def excerptOf (content : List Char) : Option (List Char) :=
  if (['<', 'p', '>'] : List Char).isPrefixOf content then
    (pSearch (content.drop 3)).map
      (fun body => ['<', 'p', '>'] ++ body ++ ['<', '/', 'p', '>'])
  else none

/-- C7: the excerpt regexp never skips leading non-paragraph content — on
`x<p>hi</p>` the stored excerpt is `None`, although the same paragraph is
extracted when it starts the rendered content.  The lazy prefix `.*?`
before the optional group is dead: the code contradicts the claimed
"first `<p>…</p>` block even when preceded by leading content". -/
theorem mynt_excerpt_leading_content_bug :
    excerptOf ("x<p>hi</p>".toList) = none ∧
      excerptOf ("<p>hi</p>".toList) = some ("<p>hi</p>".toList) ∧
      excerptOf ("no paragraph here".toList) = none :=
  ⟨by decide, by decide, by decide⟩

/-- An output page: destination path and rendered byte content. -/
structure PageOut where
  path : List Char
  content : List Char
deriving DecidableEq

/-- The user-facing error kinds of `generate`. -/
inductive MyntError where
  | optionError
deriving DecidableEq

/-- The filesystem operations the destination phase of `generate` can
perform, in program order. -/
inductive FsOp where
  | rmDest
  | mkDest
  | writePage (path content : List Char)
  | copyAsset (a : List Char)
deriving DecidableEq

/-- The destination phase of `Mynt.generate`, after `_render` has produced
the page list: if the destination exists, raise `OptionException` unless
the force flag is set, in which case remove it recursively; then create the
destination, write every page, and copy the asset tree. -/
def generateOps (destExists force : Bool) (pages : List PageOut)
    (assets : List (List Char)) : Except MyntError (List FsOp) :=
  if destExists then
    if force then
      Except.ok ([FsOp.rmDest, FsOp.mkDest] ++
        pages.map (fun p => FsOp.writePage p.path p.content) ++
        assets.map FsOp.copyAsset)
    else
      Except.error MyntError.optionError
  else
    Except.ok ([FsOp.mkDest] ++
      pages.map (fun p => FsOp.writePage p.path p.content) ++
      assets.map FsOp.copyAsset)

/-- C2: with the destination present and no force flag, `generate` fails
with `OptionError` performing no destination operation at all; with force,
the destination is removed recursively and recreated before any page is
written or asset copied — the prior tree is fully replaced, never merged. -/
theorem mynt_generate_overwrite_policy (pages : List PageOut)
    (assets : List (List Char)) :
    generateOps true false pages assets = Except.error MyntError.optionError ∧
      generateOps true true pages assets =
        Except.ok (FsOp.rmDest :: FsOp.mkDest ::
          (pages.map (fun p => FsOp.writePage p.path p.content) ++
            assets.map FsOp.copyAsset)) :=
  ⟨rfl, rfl⟩

/-- The configuration a `generate` run reads for URL and path resolution. -/
structure RunConfig where
  postsUrl : List Char
  destPath : List Char

/-- The per-post source data entering the pipeline. -/
structure ParsedPost where
  date : Date
  slug : List Char
  layout : String
  body : List Char

/-- The post-page production of `_render`: one page per post, its content
rendered through the pluggable template renderer (abstract `render`) and
rewritten by the highlight pass (abstract, pure `postProcess`), its
destination path computed from the resolved post URL. -/
def renderPosts (cfg : RunConfig) (join : List (List Char) → List Char)
    (render : ParsedPost → List Char) (postProcess : List Char → List Char)
    (posts : List ParsedPost) : List PageOut :=
  posts.map fun p =>
    ⟨getPath join cfg.destPath (getPostUrl cfg.postsUrl p.date p.slug),
      postProcess (render p)⟩

/-- One full `generate` run over already-parsed sources: produce the pages,
apply the overwrite policy against the previous destination tree, and
materialize pages plus assets as the new destination tree (a list of
path–content pairs).  With force, the previous tree is removed wholesale
and never read. -/
def runGenerate (cfg : RunConfig) (join : List (List Char) → List Char)
    (render : ParsedPost → List Char) (postProcess : List Char → List Char)
    (posts : List ParsedPost) (assets : List (List Char × List Char))
    (prevDest : Option (List (List Char × List Char))) (force : Bool) :
    Except MyntError (List (List Char × List Char)) :=
  let pages := renderPosts cfg join render postProcess posts
  let tree := pages.map (fun p => (p.path, p.content)) ++ assets
  match prevDest with
  | some _ => if force then Except.ok tree else Except.error MyntError.optionError
  | none => Except.ok tree

/-- C8: the pipeline is a pure function of source content and
configuration, and with force the pre-existing destination is removed
without being read — so a second run on unchanged inputs over the first
run's destination reproduces that destination byte for byte. -/
theorem mynt_generate_idempotent (cfg : RunConfig) (join : List (List Char) → List Char)
    (render : ParsedPost → List Char) (postProcess : List Char → List Char)
    (posts : List ParsedPost) (assets : List (List Char × List Char))
    (d1 : List (List Char × List Char))
    (h : runGenerate cfg join render postProcess posts assets none true = Except.ok d1) :
    runGenerate cfg join render postProcess posts assets (some d1) true =
      Except.ok d1 :=
  h

/-- Witness for C8: a one-post, one-asset run whose destination tree is
reproduced by the second (forced) run. -/
theorem mynt_generate_idempotent_witness :
    runGenerate ⟨"/<year>/<title>/".toList, "/dest".toList⟩ (List.intercalate ['/'])
        (fun p => p.body) (fun h => h)
        [⟨⟨2020, 1, 5⟩, "hi".toList, "post.html", "<p>x</p>".toList⟩]
        [("a.css".toList, "body".toList)]
        (some [("/dest//2020/hi//index.html".toList, "<p>x</p>".toList),
          ("a.css".toList, "body".toList)]) true =
      Except.ok [("/dest//2020/hi//index.html".toList, "<p>x</p>".toList),
        ("a.css".toList, "body".toList)] :=
  mynt_generate_idempotent _ _ _ _ _ _ _ (congrArg Except.ok (by decide))

/-- The tag-accumulation step of `_parse` for one tag of one post:
`if tag not in self.tags: self.tags[tag] = []` then
`self.tags[tag].append(data)`.  The `Tags` container (mynt.containers, not
under src/) is modelled from the spec as a name-keyed, insertion-ordered
association list. -/
def tagAppend (tags : List (String × List PostData)) (name : String) (p : PostData) :
    List (String × List PostData) :=
  if tags.any (fun nv => nv.1 = name) then
    tags.map (fun nv => if nv.1 = name then (nv.1, nv.2 ++ [p]) else nv)
  else
    tags ++ [(name, [p])]

/-- The tag-accumulation loop of `_parse` over one post. -/
def addPostTags (tags : List (String × List PostData)) (p : PostData) :
    List (String × List PostData) :=
  p.tags.foldl (fun acc name => tagAppend acc name p) tags

/-- The tag-accumulation loop of `_parse` over all newly parsed posts. -/
def accumPosts (tags : List (String × List PostData)) (ps : List PostData) :
    List (String × List PostData) :=
  ps.foldl addPostTags tags

/-- Modelled from the spec: the `Archives` container (mynt.containers, not
under src/) is a time-period grouping derived purely from the already-sorted
post list; the grouping key plays no role in the state-sharing claims, so
the buckets are represented by that sorted list itself. -/
def buildArchives (posts : List PostData) : List PostData := posts

/-- The class-level collections of `Mynt` (`archives`, `pages`, `posts`,
`tags` are class attributes, shared by every instance in the process). -/
structure MyntClassState where
  posts : List PostData
  pages : List PageOut
  tags : List (String × List PostData)
  archives : List PostData
deriving DecidableEq

/-- The per-instance attributes a run can create: `_parse` executes
`self.archives = Archives(self.posts)`, binding an instance attribute that
shadows the class attribute for that instance only. -/
structure MyntInstanceState where
  archives : Option (List PostData)
deriving DecidableEq

/-- Python attribute lookup for `self.archives`: the instance attribute when
one has been bound, otherwise the class attribute. -/
def readArchives (cs : MyntClassState) (inst : MyntInstanceState) : List PostData :=
  inst.archives.getD cs.archives

/-- The state effects of `_parse` followed by `_render`, as executed on
Python's class-level collections: `self.posts.append(...)`, the in-place
`self.posts.sort(...)`, the `self.tags` mutations (accumulation, then
clear-and-reinsert of the finalized entries) and `self.pages.append(...)`
all mutate the class attributes, while `self.archives = Archives(self.posts)`
binds a fresh instance attribute and leaves the class attribute untouched.
The rendered pages are taken as an abstract input `newPages`. -/
def parseRender (tagsUrl : List Char) (cs : MyntClassState) (inst : MyntInstanceState)
    (newPosts : List PostData) (newPages : List PageOut) :
    MyntClassState × MyntInstanceState :=
  let posts1 := cs.posts ++ newPosts
  let tags1 := accumPosts cs.tags newPosts
  if posts1.isEmpty then
    (⟨posts1, cs.pages ++ newPages, tags1, cs.archives⟩, inst)
  else
    let posts2 := List.insertionSort (fun p q => q.timestamp ≤ p.timestamp) posts1
    let tags2 := (finalizeTags tagsUrl tags1).map (fun e => (e.name, e.posts))
    (⟨posts2, cs.pages ++ newPages, tags2, cs.archives⟩,
      ⟨some (buildArchives posts2)⟩)

/-- C10 counterexample: after a first run (one tagged post) from the
pristine class state, a second, fresh `Mynt` instance does *not* observe the
archives that run produced — `self.archives = Archives(...)` bound an
instance attribute, so the fresh instance still reads the original empty
class attribute, unlike the claim's "a second instance observes the
collections populated by the first run" for `archives`. -/
theorem mynt_class_state_cex :
    readArchives
        (parseRender ("/".toList) ⟨[], [], [], []⟩ ⟨none⟩
          [⟨100, ["go"]⟩] [⟨"p".toList, "c".toList⟩]).1
        ⟨none⟩ ≠
      readArchives
        (parseRender ("/".toList) ⟨[], [], [], []⟩ ⟨none⟩
          [⟨100, ["go"]⟩] [⟨"p".toList, "c".toList⟩]).1
        (parseRender ("/".toList) ⟨[], [], [], []⟩ ⟨none⟩
          [⟨100, ["go"]⟩] [⟨"p".toList, "c".toList⟩]).2 := by
  decide

/-- C10 (amended): `posts`, `pages` and `tags` are class-level collections
mutated in place, so a second instance created after a run observes (and
further runs append into) the state the first run left there; `archives`,
although declared as a class attribute, is rebound to an instance attribute
by `_parse`, so the class attribute keeps its pre-run value and a fresh
instance does not see the first run's archives. -/
theorem mynt_class_state_shared (tagsUrl : List Char) (cs : MyntClassState)
    (inst : MyntInstanceState) (newPosts : List PostData) (newPages : List PageOut)
    (h : (cs.posts ++ newPosts).isEmpty = false) :
    (parseRender tagsUrl cs inst newPosts newPages).1.posts =
        List.insertionSort (fun p q => q.timestamp ≤ p.timestamp)
          (cs.posts ++ newPosts) ∧
      (parseRender tagsUrl cs inst newPosts newPages).1.pages = cs.pages ++ newPages ∧
      (parseRender tagsUrl cs inst newPosts newPages).1.tags =
        (finalizeTags tagsUrl (accumPosts cs.tags newPosts)).map
          (fun e => (e.name, e.posts)) ∧
      (parseRender tagsUrl cs inst newPosts newPages).1.archives = cs.archives ∧
      (parseRender tagsUrl cs inst newPosts newPages).2.archives =
        some (buildArchives (List.insertionSort (fun p q => q.timestamp ≤ p.timestamp)
          (cs.posts ++ newPosts))) ∧
      readArchives (parseRender tagsUrl cs inst newPosts newPages).1 ⟨none⟩ =
        cs.archives := by
  unfold parseRender
  rw [if_neg (by simp [h])]
  exact ⟨rfl, rfl, rfl, rfl, rfl, rfl⟩

/-- Witness for the amended C10: a fresh instance after a one-post run reads
the untouched (empty) class-level archives. -/
theorem mynt_class_state_shared_witness :
    readArchives
        (parseRender ("/".toList) ⟨[], [], [], []⟩ ⟨none⟩
          [⟨100, ["go"]⟩] [⟨"p".toList, "c".toList⟩]).1
        ⟨none⟩ = [] :=
  (mynt_class_state_shared ("/".toList) ⟨[], [], [], []⟩ ⟨none⟩
    [⟨100, ["go"]⟩] [⟨"p".toList, "c".toList⟩] (by decide)).2.2.2.2.2
